import Mathlib
/-!
Verification of the resilience layer of the Git-Metrics-Detector repository:
the LLM provider failover chain (`backend/app/services/llm/provider_chain.py`),
the token-budgeted batch planner (`backend/app/utils/token_estimator.py`),
the structured-output extractor and fallback synthesizers
(`backend/app/services/llm_service.py`), and the adaptive batch executor
(`backend/app/services/analysis_service.py`).
The Python code is shallowly embedded: pure functions become Lean functions,
stateful code passes state explicitly, clock reads become explicit parameters,
and code that may raise returns `Except`/`Option` values.  JSON payloads are
modelled by an inductive `Json` type whose numbers are integers (the claims
under verification only exercise integer payloads; floating point is out of
scope of the embedding).
-/
/-! ## JSON values
Model of the structured payloads handled by `json.loads` / `json.dumps`.
-/

inductive Json where
  | null : Json
  | bool : Bool → Json
  | num : Int → Json
  | str : List Char → Json
  | arr : List Json → Json
  | obj : List (List Char × Json) → Json
deriving Repr

/-- Characters that are frequent below but awkward as literals. -/
def chBacktick : Char := Char.ofNat 96

def chLBrace : Char := Char.ofNat 123

def chRBrace : Char := Char.ofNat 125

def chLBrack : Char := '['

def chRBrack : Char := ']'

/-- Whitespace as recognized by Python `str.strip` / the `\s` regex class
(ASCII subset). -/
def pyIsSpace (c : Char) : Bool :=
  c = ' ' || c = '\t' || c = '\n' || c = '\r' || c = Char.ofNat 11 || c = Char.ofNat 12

/-- JSON string escaping used when rendering a value (`json.dumps` subset:
quote, backslash and the common control characters). -/
def escapeChar (c : Char) : List Char :=
  if c = '"' then ['\\', '"']
  else if c = '\\' then ['\\', '\\']
  else if c = '\n' then ['\\', 'n']
  else if c = '\t' then ['\\', 't']
  else if c = '\r' then ['\\', 'r']
  else [c]

def escapeStr (s : List Char) : List Char :=
  (s.map escapeChar).flatten

/-- Decimal digits of a natural number, most significant first. -/
def natToDigitsAux (n : Nat) (acc : List Char) : List Char :=
  if n = 0 then acc
  else natToDigitsAux (n / 10) (Nat.digitChar (n % 10) :: acc)
termination_by n
decreasing_by
  exact Nat.div_lt_self (Nat.pos_of_ne_zero (by assumption)) (by norm_num)

def natRender (n : Nat) : List Char :=
  if n = 0 then ['0'] else natToDigitsAux n []

def intRender (i : Int) : List Char :=
  if i < 0 then '-' :: natRender i.natAbs else natRender i.natAbs

mutual

/-- Compact textual rendering of a JSON value (the embedding of serializing
a structured object to JSON text). -/
def jsonRender : Json → List Char
  | .null => ("null".toList)
  | .bool b => if b then ("true".toList) else ("false".toList)
  | .num i => intRender i
  | .str s => '"' :: (escapeStr s ++ ['"'])
  | .arr xs => chLBrack :: (jsonRenderElems xs ++ [chRBrack])
  | .obj kvs => chLBrace :: (jsonRenderMembers kvs ++ [chRBrace])

def jsonRenderElems : List Json → List Char
  | [] => []
  | [x] => jsonRender x
  | x :: y :: rest => jsonRender x ++ ',' :: jsonRenderElems (y :: rest)

def jsonRenderMembers : List (List Char × Json) → List Char
  | [] => []
  | [(k, v)] => '"' :: (escapeStr k ++ '"' :: ':' :: jsonRender v)
  | (k, v) :: m :: rest =>
      '"' :: (escapeStr k ++ '"' :: ':' :: jsonRender v) ++ ',' :: jsonRenderMembers (m :: rest)

end

/-! ## JSON parsing

Embedding of `json.loads` on the modelled subset: whitespace-tolerant
recursive-descent parsing of null/true/false, integer numbers, strings with
the common escapes, arrays and objects.  `none` models a raised
`json.JSONDecodeError`.  The recursion is fuelled so that every function is
structurally recursive (and hence evaluable); `jsonLoads` supplies fuel that
provably suffices for every input.
-/

def skipWs : List Char → List Char
  | [] => []
  | c :: rest => if pyIsSpace c then skipWs rest else c :: rest

def takeDigits : List Char → List Char × List Char
  | [] => ([], [])
  | c :: rest =>
      if c.isDigit then
        let (ds, r) := takeDigits rest
        (c :: ds, r)
      else ([], c :: rest)

def digitsToNat (ds : List Char) : Nat :=
  ds.foldl (fun a c => a * 10 + (c.toNat - 48)) 0

/-- Decode a single-character JSON escape code. -/
def escDecode (e : Char) : Option Char :=
  if e = '"' then some '"'
  else if e = '\\' then some '\\'
  else if e = '/' then some '/'
  else if e = 'n' then some '\n'
  else if e = 't' then some '\t'
  else if e = 'r' then some '\r'
  else if e = 'b' then some (Char.ofNat 8)
  else if e = 'f' then some (Char.ofNat 12)
  else none

def hexVal (c : Char) : Option Nat :=
  if '0' ≤ c ∧ c ≤ '9' then some (c.toNat - 48)
  else if 'a' ≤ c ∧ c ≤ 'f' then some (c.toNat - 87)
  else if 'A' ≤ c ∧ c ≤ 'F' then some (c.toNat - 55)
  else none

/-- Parse the body of a JSON string after the opening quote, returning the
decoded characters and the input after the closing quote.  Fuelled so that the
definition is structurally recursive; `strBodyFull` supplies sufficient fuel. -/
def strBody : Nat → List Char → Option (List Char × List Char)
  | 0, _ => none
  | _ + 1, [] => none
  | fuel + 1, c :: rest =>
      if c = '"' then some ([], rest)
      else if c = '\\' then
        match rest with
        | [] => none
        | e :: rest2 =>
            if e = 'u' then
              match rest2 with
              | h1 :: h2 :: h3 :: h4 :: rest3 =>
                  match hexVal h1, hexVal h2, hexVal h3, hexVal h4 with
                  | some a, some b, some c2, some d =>
                      (fun p => (Char.ofNat (((a * 16 + b) * 16 + c2) * 16 + d) :: p.1, p.2)) <$>
                        strBody fuel rest3
                  | _, _, _, _ => none
              | _ => none
            else
              match escDecode e with
              | some d => (fun p => (d :: p.1, p.2)) <$> strBody fuel rest2
              | none => none
      else (fun p => (c :: p.1, p.2)) <$> strBody fuel rest

def strBodyFull (s : List Char) : Option (List Char × List Char) :=
  strBody (s.length + 1) s

mutual

/-- Parse one JSON value (leading whitespace allowed). -/
def jVal : Nat → List Char → Option (Json × List Char)
  | 0, _ => none
  | fuel + 1, s =>
      match skipWs s with
      | [] => none
      | c :: rest =>
          if c.isDigit then
            match takeDigits (c :: rest) with
            | (ds, r2) => some (.num (digitsToNat ds), r2)
          else if c = '-' then
            match takeDigits rest with
            | ([], _) => none
            | (ds, r2) => some (.num (-(digitsToNat ds : Int)), r2)
          else if c = 'n' then
            if rest.take 3 = ['u', 'l', 'l'] then some (.null, rest.drop 3) else none
          else if c = 't' then
            if rest.take 3 = ['r', 'u', 'e'] then some (.bool true, rest.drop 3) else none
          else if c = 'f' then
            if rest.take 4 = ['a', 'l', 's', 'e'] then some (.bool false, rest.drop 4) else none
          else if c = '"' then
            (fun p => (Json.str p.1, p.2)) <$> strBodyFull rest
          else if c = chLBrack then
            match skipWs rest with
            | c2 :: r2 =>
                if c2 = chRBrack then some (.arr [], r2)
                else (fun p => (Json.arr p.1, p.2)) <$> jElems fuel (c2 :: r2)
            | [] => none
          else if c = chLBrace then
            match skipWs rest with
            | c2 :: r2 =>
                if c2 = chRBrace then some (.obj [], r2)
                else (fun p => (Json.obj p.1, p.2)) <$> jMembers fuel (c2 :: r2)
            | [] => none
          else none

/-- Parse the comma-separated elements of a non-empty array, consuming the
closing bracket. -/
def jElems : Nat → List Char → Option (List Json × List Char)
  | 0, _ => none
  | fuel + 1, s => do
      let (v, r) ← jVal fuel s
      match skipWs r with
      | c :: r2 =>
          if c = ',' then (fun p => (v :: p.1, p.2)) <$> jElems fuel r2
          else if c = chRBrack then some ([v], r2)
          else none
      | [] => none

/-- Parse the comma-separated members of a non-empty object, consuming the
closing brace. -/
def jMembers : Nat → List Char → Option (List (List Char × Json) × List Char)
  | 0, _ => none
  | fuel + 1, s =>
      match skipWs s with
      | c :: rest =>
          if c = '"' then do
            let (k, r) ← strBodyFull rest
            match skipWs r with
            | c2 :: r2 =>
                if c2 = ':' then do
                  let (v, r3) ← jVal fuel r2
                  match skipWs r3 with
                  | c3 :: r4 =>
                      if c3 = ',' then (fun p => ((k, v) :: p.1, p.2)) <$> jMembers fuel r4
                      else if c3 = chRBrace then some ([(k, v)], r4)
                      else none
                  | [] => none
                else none
            | [] => none
          else none
      | [] => none

end

/-- Embedding of `json.loads`: parse one value and require that only
whitespace remains (otherwise `json.loads` raises "Extra data"). -/
def jsonLoads (s : List Char) : Option Json :=
  match jVal (2 * s.length + 2) s with
  | some (v, rest) => if skipWs rest = [] then some v else none
  | none => none

/-- `true` when the input does not begin with a decimal digit (the boundary
condition under which number parsing stops exactly at a rendered number). -/
def noDigitHead : List Char → Bool
  | [] => true
  | c :: _ => !c.isDigit

mutual

/-- Fuel that provably suffices to parse a rendered value. -/
def jfuel : Json → Nat
  | .null => 1
  | .bool _ => 1
  | .num _ => 1
  | .str _ => 1
  | .arr xs => 1 + jfuelElems xs
  | .obj kvs => 1 + jfuelMembers kvs

def jfuelElems : List Json → Nat
  | [] => 1
  | x :: rest => 1 + jfuel x + jfuelElems rest

def jfuelMembers : List (List Char × Json) → Nat
  | [] => 1
  | (_, v) :: rest => 1 + jfuel v + jfuelMembers rest

end

/-- Prefix test on character lists (Python `str.startswith`). -/
def startsWith : List Char → List Char → Bool
  | [], _ => true
  | _ :: _, [] => false
  | a :: as, b :: bs => (a == b) && startsWith as bs

/-- Python `str.find`: index of the first occurrence of `needle`, if any. -/
def findSub : List Char → List Char → Option Nat
  | [], needle => if needle.isEmpty then some 0 else none
  | c :: rest, needle =>
      if startsWith needle (c :: rest) then some 0
      else (findSub rest needle).map (· + 1)

def firstIdxOf (c : Char) (s : List Char) : Option Nat :=
  findSub s [c]

def lastIdxOf (c : Char) (s : List Char) : Option Nat :=
  (firstIdxOf c s.reverse).map (fun i => s.length - 1 - i)

def toLowerL (s : List Char) : List Char :=
  s.map Char.toLower

/-- Python `str.strip()` on the modelled whitespace. -/
def pyStripRight (s : List Char) : List Char :=
  (s.reverse.dropWhile pyIsSpace).reverse

def pyStrip (s : List Char) : List Char :=
  pyStripRight (s.dropWhile pyIsSpace)

/-- The legacy `<thinking>` block: `re.search(r"<thinking>([\s\S]*?)(?:</thinking>|$)", s,
re.IGNORECASE)`, returning the stripped capture. -/
def extractThinkingOpt (raw : List Char) : Option (List Char) :=
  match findSub (toLowerL raw) ("<thinking>".toList) with
  | none => none
  | some i =>
      let after := raw.drop (i + 10)
      match findSub (toLowerL after) ("</thinking>".toList) with
      | none => some (pyStrip after)
      | some j => some (pyStrip (after.take j))

/-- `re.sub(r"<thinking>[\s\S]*?(?:</thinking>|$)", "", s, re.IGNORECASE)`. -/
def removeThinking : Nat → List Char → List Char
  | 0, raw => raw
  | fuel + 1, raw =>
      match findSub (toLowerL raw) ("<thinking>".toList) with
      | none => raw
      | some i =>
          let pre := raw.take i
          let after := raw.drop (i + 10)
          match findSub (toLowerL after) ("</thinking>".toList) with
          | none => pre
          | some j => pre ++ removeThinking fuel (after.drop (j + 11))

def removeThinkingFull (raw : List Char) : List Char :=
  removeThinking raw.length raw

/-- Does `\s*```​` match here (maximal whitespace run, then a fence)? -/
def fenceAfter (t : List Char) : Bool :=
  startsWith ("```".toList) (t.dropWhile pyIsSpace)

def closeHit (u : List Char) (e : Nat) : Bool :=
  ((u.drop e).head? == some chRBrace) && fenceAfter (u.drop (e + 1))

/-- Index of the greedy (rightmost) `}` of `\{[\s\S]*\}` that is followed by
`\s*```​`, scanning downward. -/
def greedyCloseAux : Nat → List Char → Option Nat
  | 0, _ => none
  | e + 1, u => if closeHit u e then some e else greedyCloseAux e u

/-- After the fence: `(?:json)?\s*` then require `{` and take the greedy body. -/
def fenceInner (u : List Char) : Option (List Char) :=
  let u1 := if startsWith ("json".toList) u then u.drop 4 else u
  let u2 := u1.dropWhile pyIsSpace
  match u2 with
  | c :: _ =>
      if c = chLBrace then
        match greedyCloseAux u2.length u2 with
        | some e => some (u2.take (e + 1))
        | none => none
      else none
  | [] => none

/-- `re.search(r"```(?:json)?\s*(\{[\s\S]*\})\s*```", s)`: leftmost fence whose
interior starts with `{` and greedily ends at the last `}` before a closing
fence. -/
def fencedGreedy : List Char → Option (List Char)
  | [] => none
  | c :: rest =>
      match (if startsWith ("```".toList) (c :: rest) then fenceInner ((c :: rest).drop 3)
        else none) with
      | some cap => some cap
      | none => fencedGreedy rest

/-- Lazy interior: the minimal prefix of `u` followed by `\s*```​`. -/
def lazyCap : List Char → Option (List Char)
  | [] => if fenceAfter [] then some [] else none
  | c :: r =>
      if fenceAfter (c :: r) then some []
      else (fun p => c :: p) <$> lazyCap r

/-- `re.search(r"```(?:json)?\s*([\s\S]*?)\s*```", s)`. -/
def fencedLazy : List Char → Option (List Char)
  | [] => none
  | c :: rest =>
      match (if startsWith ("```".toList) (c :: rest) then
          lazyCap ((if startsWith ("json".toList) ((c :: rest).drop 3)
            then (c :: rest).drop 7 else (c :: rest).drop 3).dropWhile pyIsSpace)
        else none) with
      | some cap => some cap
      | none => fencedLazy rest

/-- `re.search(r"(\{[\s\S]*\})", s)`: first `{` through the last `}`. -/
def braceSpan (s : List Char) : Option (List Char) := do
  let i ← firstIdxOf chLBrace s
  let j ← lastIdxOf chRBrace s
  if i < j then some ((s.drop i).take (j - i + 1)) else none

/-- `re.sub(r",\s*([\]}])", r"\1", s)`: drop trailing commas before a closing
brace/bracket. -/
def fixTrailing : Nat → List Char → List Char
  | 0, s => s
  | _ + 1, [] => []
  | fuel + 1, c :: rest =>
      if c = ',' then
        match rest.dropWhile pyIsSpace with
        | c2 :: r3 =>
            if c2 = chRBrack ∨ c2 = chRBrace then c2 :: fixTrailing fuel r3
            else c :: fixTrailing fuel rest
        | [] => c :: fixTrailing fuel rest
      else c :: fixTrailing fuel rest

def fixTrailingFull (s : List Char) : List Char :=
  fixTrailing s.length s

/-- `re.search(rf'"{key}"\s*:\s*(\[[\s\S]*\])', s)`: scan for the quoted key,
then `\s*:\s*`, then capture from `[` through the last `]` of the text. -/
def keyCapAt (key : List Char) (t : List Char) : Option (List Char) :=
  if startsWith ('"' :: (key ++ ['"'])) t then
    match (t.drop (key.length + 2)).dropWhile pyIsSpace with
    | c :: t2 =>
        if c = ':' then
          match t2.dropWhile pyIsSpace with
        | c2 :: _ =>
            if c2 = chLBrack then
              let t3 := t2.dropWhile pyIsSpace
              match lastIdxOf chRBrack t3 with
              | some j => if 1 ≤ j then some (t3.take (j + 1)) else none
              | none => none
            else none
        | [] => none
        else none
    | [] => none
  else none

def keySearch (key : List Char) : List Char → Option (List Char)
  | [] => none
  | c :: rest =>
      match keyCapAt key (c :: rest) with
      | some cap => some cap
      | none => keySearch key rest

/-- The desperate key loop over `["mock_data", "metrics", "cards", "insights"]`. -/
def keyLoop : List (List Char) → List Char → Option Json
  | [], _ => none
  | k :: ks, clean =>
      match (keySearch k clean).bind jsonLoads with
      | some data => some (.obj [(k, data)])
      | none => keyLoop ks clean

def wellKnownKeys : List (List Char) :=
  [("mock_data".toList), ("metrics".toList), ("cards".toList), ("insights".toList)]

/-- Recovery strategy 1: direct parse of the whole (non-empty) trimmed text. -/
def strategyDirect (clean : List Char) : Option Json :=
  if clean.isEmpty then none else jsonLoads clean

/-- Recovery strategy 2: fenced code block (greedy variant, then lazy). -/
def strategyFenced (clean : List Char) : Option Json :=
  (match fencedGreedy clean with
    | some cap => some cap
    | none => fencedLazy clean).bind jsonLoads

def balanceCand (cand : List Char) : List Char :=
  cand ++ List.replicate (cand.count chLBrace - cand.count chRBrace) chRBrace ++
    List.replicate (cand.count chLBrack - cand.count chRBrack) chRBrack

/-- Recovery strategies 3-5: first `{` to last `}` (with a trailing-comma
retry), or — only when no closing brace exists — brace balancing of the text
from the first `{`. -/
def strategyBraces (clean : List Char) : Option Json :=
  match braceSpan clean with
  | some cand =>
      (match jsonLoads cand with
        | some v => some v
        | none => jsonLoads (fixTrailingFull cand))
  | none =>
      match firstIdxOf chLBrace clean with
      | some i => jsonLoads (balanceCand (pyStrip (clean.drop i)))
      | none => none

/-- Recovery strategy 6: regex search for well-known list-valued keys. -/
def strategyKeys (clean : List Char) : Option Json :=
  keyLoop wellKnownKeys clean

/-- All recovery strategies, in source order. -/
def extractPayload (clean : List Char) : Option Json :=
  match strategyDirect clean with
  | some v => some v
  | none =>
      match strategyFenced clean with
      | some v => some v
      | none =>
          match strategyBraces clean with
          | some v => some v
          | none => strategyKeys clean

/-- The two `ValueError`s `_parse_json_with_thought` can raise: empty/non-text
input, and the final unparsable-output error (carrying the 200-char preview). -/
inductive ExtractErr where
  | emptyInput : ExtractErr
  | unparsable : List Char → ExtractErr
deriving Repr

/-- The `clean_raw` computation of `_parse_json_with_thought`. -/
def cleanOf (raw : List Char) : List Char :=
  match findSub raw ("```json".toList) with
  | some i => pyStrip (raw.drop i)
  | none =>
      match firstIdxOf chLBrace raw with
      | some i => pyStrip (raw.drop i)
      | none => pyStrip (removeThinkingFull raw)

/-- The legacy `thought` computation of `_parse_json_with_thought`. -/
def thoughtOf (raw : List Char) : List Char :=
  match findSub raw ("```json".toList) with
  | some i => ((extractThinkingOpt (raw.take i)).or (extractThinkingOpt raw)).getD []
  | none =>
      match firstIdxOf chLBrace raw with
      | some i => ((extractThinkingOpt (raw.take i)).or (extractThinkingOpt raw)).getD []
      | none => (extractThinkingOpt raw).getD []

/-- Embedding of `_parse_json_with_thought`. -/
def parse_json_with_thought (raw : List Char) : Except ExtractErr (Json × List Char) :=
  if raw.isEmpty then .error .emptyInput
  else
    match extractPayload (cleanOf raw) with
    | some v => .ok (v, thoughtOf raw)
    | none => .error (.unparsable (raw.take 200))

/-- First binding of `key` in a parsed object (`dict.get`). -/
def lookupKey (kvs : List (List Char × Json)) (key : List Char) : Option Json :=
  match kvs.find? (fun kv => kv.1 == key) with
  | some kv => some kv.2
  | none => none

/-- The `trace` splitting of `_parse_json_with_trace`: the result together
with its `trace` member when that member is an object, else `{}`. -/
def traceSplit (res : Json) : Json :=
  match res with
  | .obj kvs =>
      match lookupKey kvs ("trace".toList) with
      | some (.obj t) => .obj t
      | _ => .obj []
  | _ => .obj []

/-- Embedding of `_parse_json_with_trace`. -/
def parse_json_with_trace (raw : List Char) : Except ExtractErr (Json × Json) :=
  match parse_json_with_thought raw with
  | .error e => .error e
  | .ok (res, _) => .ok (res, traceSplit res)

/-- Rendering a payload as a fenced JSON block (the round-trip input of the
specification). -/
def renderFenced (v : Json) : List Char :=
  ("```json\n".toList) ++ jsonRender v ++ ("\n```".toList)

/-- Does an optional JSON value hold an object? (used to state when the
`trace` member is split out non-trivially). -/
def isObjOpt : Option Json → Bool
  | some (.obj _) => true
  | _ => false

def MAX_RETRIES_PER_PROVIDER : Nat := 3

def RATE_LIMIT_RETRY_DELAY : Nat := 5

/-- A raised Python exception: its type name and its `str(e)` message. -/
structure PyErr where
  typeName : List Char
  msg : List Char

/-- `error_msg = str(e) or type(e).__name__`. -/
def errEntryMsg (e : PyErr) : List Char :=
  if e.msg = [] then e.typeName else e.msg

/-- The retriable-error markers of `provider_chain.py:62`. -/
def retryMarkers : List (List Char) :=
  [("429".toList), ("rate".toList), ("quota".toList), ("resource".toList),
    ("limit".toList), ("empty response".toList)]

/-- `any(kw in str(e).lower() for kw in [...])`. -/
def is_retriable (msg : List Char) : Bool :=
  retryMarkers.any (fun kw => (findSub (toLowerL msg) kw).isSome)

/-- Events recorded during one `generate` call: the `errors` list of the
source, every `(provider index, attempt number)` pair tried, and the seconds
passed to each retry sleep. -/
structure ChainTrace where
  errors : List (List Char)
  attempts : List (Nat × Nat)
  sleeps : List Nat

/-- The per-provider retry loop (`for attempt in range(MAX_RETRIES_PER_PROVIDER)`),
fuelled by the remaining attempts. -/
def providerLoop (resp : Nat → Nat → Except PyErr (List Char)) (names : Nat → List Char)
    (idx : Nat) : Nat → Nat → ChainTrace → Option (List Char) × ChainTrace
  | 0, _, tr => (none, tr)
  | fuel + 1, attempt, tr =>
      let tr1 : ChainTrace := { tr with attempts := tr.attempts ++ [(idx, attempt)] }
      match resp idx attempt with
      | .ok text => (some text, tr1)
      | .error e =>
          let tr2 : ChainTrace :=
            { tr1 with errors := tr1.errors ++ [names idx ++ (": ".toList) ++ errEntryMsg e] }
          if is_retriable e.msg ∧ attempt < MAX_RETRIES_PER_PROVIDER - 1 then
            providerLoop resp names idx fuel (attempt + 1)
              { tr2 with sleeps :=
                  tr2.sleeps ++ [min (RATE_LIMIT_RETRY_DELAY * 2 ^ attempt) 60] }
          else (none, tr2)

/-- The provider loop (`for offset in range(n)`), fuelled by remaining offsets. -/
def offsetLoop (resp : Nat → Nat → Except PyErr (List Char)) (names : Nat → List Char)
    (pref n : Nat) : Nat → Nat → ChainTrace → Option (List Char × Nat) × ChainTrace
  | 0, _, tr => (none, tr)
  | fuel + 1, offset, tr =>
      let idx := (pref + offset) % n
      match providerLoop resp names idx MAX_RETRIES_PER_PROVIDER 0 tr with
      | (some t, tr2) => (some (t, idx), tr2)
      | (none, tr2) => offsetLoop resp names pref n fuel (offset + 1) tr2

/-- The chain-exhaustion `RuntimeError` message, carrying `'; '.join(errors)`. -/
def chainExhaustMsg (names : Nat → List Char) (n : Nat) (errors : List (List Char)) : List Char :=
  if n = 1 then names 0 ++ (" failed. Errors: ".toList) ++ List.intercalate ("; ".toList) errors
  else ("All LLM providers failed. Errors: ".toList) ++ List.intercalate ("; ".toList) errors

/-- The chain itself: the names of the available providers, and the mutable
sticky `_preferred_index`. -/
structure LLMProviderChain where
  available : List (List Char)
  preferredIndex : Nat

/-- `LLMProviderChain.__init__`: filter available providers; zero available
providers is a fatal `RuntimeError`. -/
def chainInit (providers : List (Bool × List Char)) : Except (List Char) LLMProviderChain :=
  let avail := (providers.filter (fun p => p.1)).map (fun p => p.2)
  if avail.isEmpty then
    .error (("No LLM providers available. Configure at least one of: GEMINI_API_KEY, " ++
      "GROQ_API_KEY, OPENROUTER_API_KEY, or OLLAMA_BASE_URL").toList)
  else .ok ⟨avail, 0⟩

/-- Result of one `generate` call: the returned text or the raised
`RuntimeError` message, the `_preferred_index` after the call, and the trace. -/
structure GenOutcome where
  result : Except (List Char) (List Char)
  preferredIndex : Nat
  trace : ChainTrace

/-- Embedding of `LLMProviderChain.generate`. -/
def generate (ch : LLMProviderChain) (resp : Nat → Nat → Except PyErr (List Char)) : GenOutcome :=
  let n := ch.available.length
  let names := fun i => ch.available.getD i []
  match offsetLoop resp names ch.preferredIndex n n 0 ⟨[], [], []⟩ with
  | (some (t, idx), tr) => ⟨.ok t, idx, tr⟩
  | (none, tr) => ⟨.error (chainExhaustMsg names n tr.errors), ch.preferredIndex, tr⟩

/-- The scenario responses of C4: provider 0 always rate-limited, provider 1
a terminal auth error, provider 2 succeeds. -/
def scenarioResp : Nat → Nat → Except PyErr (List Char) :=
  fun i _ =>
    if i = 0 then .error ⟨("Exception".toList), ("429 rate limit exceeded".toList)⟩
    else if i = 1 then .error ⟨("AuthError".toList), ("invalid api key".toList)⟩
    else .ok ("ok".toList)

def scenarioChain : LLMProviderChain :=
  ⟨[("gemini".toList), ("openrouter".toList), ("groq".toList)], 0⟩

def countFor (i : Nat) (l : List (Nat × Nat)) : Nat :=
  (l.filter (fun p => p.1 == i)).length

def wChain : LLMProviderChain := ⟨[("g".toList)], 0⟩

def wResp : Nat → Nat → Except PyErr (List Char) := fun _ _ => .ok ("x".toList)

structure FileD where
  path : List Char
  content : List Char
deriving DecidableEq

def MAX_TOKENS_PER_BATCH : Nat := 800000

/-- `MAX_CHARS_PER_BATCH = int(MAX_TOKENS_PER_BATCH * CHARS_PER_TOKEN)` with
`CHARS_PER_TOKEN = 3.5 = 7/2` (the product is exact, so `int` truncation is
plain division). -/
def MAX_CHARS_PER_BATCH : Nat := MAX_TOKENS_PER_BATCH * 7 / 2

/-- `file_chars = len(file["content"]) + len(file["path"]) + 20`. -/
def fileChars (f : FileD) : Nat := f.content.length + f.path.length + 20

/-- The batching loop of `create_batches`, with the character budget made a
parameter so the source planner (fixed `MAX_CHARS_PER_BATCH`) and the
spec-described planner (caller-supplied budget) share one loop body. -/
def createBatchesGo (budget : Nat) : List FileD → List FileD → Nat → List (List FileD)
  | [], cur, _ => if cur.isEmpty then [] else [cur]
  | f :: rest, cur, cc =>
      if cc + fileChars f > budget ∧ ¬ cur.isEmpty then
        cur :: createBatchesGo budget rest [f] (fileChars f)
      else
        createBatchesGo budget rest (cur ++ [f]) (cc + fileChars f)

/-- Embedding of `create_batches(files)` (`token_estimator.py:13-35`): note the
source takes no token-budget parameter and always batches against the fixed
`MAX_CHARS_PER_BATCH`. -/
def create_batches (files : List FileD) : List (List FileD) :=
  createBatchesGo MAX_CHARS_PER_BATCH files [] 0

/-- The Batch Planner as the spec describes it: `maxTokensPerBatch` is an
input, converted to a character budget by the fixed characters-per-token
ratio. Defined from the spec's words, to be compared with the source
`create_batches`. -/
def create_batches_spec (maxTokens : Nat) (files : List FileD) : List (List FileD) :=
  createBatchesGo (maxTokens * 7 / 2) files [] 0

def cFileA : FileD := ⟨("a".toList), ("aaaaaaaaaaaaaaaaaaaa".toList)⟩

def cFileB : FileD := ⟨("b".toList), ("bbbbbbbbbbbbbbbbbbbb".toList)⟩

def cFiles : List FileD := [cFileA, cFileB]

/-- A `discover_metrics` trace dict: the three list-valued keys the merge step
reads (`batch_observations`, `shortlist_criteria`, `files_referenced`). -/
structure DTrace where
  batch_observations : List (List Char)
  shortlist_criteria : List (List Char)
  files_referenced : List (List Char)
deriving DecidableEq

/-- The trace merge of the split branch of `discover_batch`:
observations and file references concatenate, shortlist criteria take the
left list `or` the right one. -/
def mergeTrace (l r : DTrace) : DTrace :=
  ⟨l.batch_observations ++ r.batch_observations,
   if l.shortlist_criteria.isEmpty then r.shortlist_criteria else l.shortlist_criteria,
   l.files_referenced ++ r.files_referenced⟩

/-- One `add_log` entry: its `kind` and its message. -/
structure LogEntry where
  kind : List Char
  msg : List Char

/-- Result of one `discover_batch` call: the returned `(metrics, trace)` pair,
the `add_log` entries it emitted, and how many content-based
(`discover_metrics`) and path-only (`discover_metrics_from_paths`) LLM calls
it made. -/
structure DBResult where
  metrics : List Json
  trace : DTrace
  logs : List LogEntry
  contentCalls : Nat
  pathCalls : Nat

/-- The last-resort branch of `discover_batch`: path-only inference, and on a
second failure the empty result plus the `kind="Error"` log entry. -/
def pathOnlyPaths (files : List FileD) : List (List Char) :=
  (files.filter (fun f => ¬ f.path.isEmpty)).map (fun f => f.path)

def pathOnly (po : List (List Char) → Except PyErr (List Json × DTrace))
    (bno : Nat) (files : List FileD) (e : PyErr) : DBResult :=
  let lg1 : LogEntry := ⟨("Retry".toList),
    ("Batch ".toList) ++ natRender bno ++
      (": falling back to path-only analysis after error: ".toList) ++ e.msg.take 240⟩
  match po (pathOnlyPaths files) with
  | .ok (ms, tr) => ⟨ms, tr, [lg1], 0, 1⟩
  | .error e2 =>
      ⟨[], ⟨[], [], []⟩,
        [lg1, ⟨("Error".toList),
          ("Batch ".toList) ++ natRender bno ++
            (": failed after retries (including path-only). Continuing with 0 metrics. Error: ".toList)
            ++ e2.msg.take 300⟩],
        0, 1⟩

/-- Embedding of `discover_batch` (`analysis_service.py:225-276`). The fuel is
`2 - depth`: the split branch requires `len(batch_files) >= 2 and depth < 2`,
so entry at depth 0 is fuel 2 and the recursion is structurally bounded. -/
def discoverBatch (co : List FileD → Except PyErr (List Json × DTrace))
    (po : List (List Char) → Except PyErr (List Json × DTrace)) (bno : Nat) :
    Nat → List FileD → DBResult
  | 0, files =>
      match co files with
      | .ok (ms, tr) => ⟨ms, tr, [], 1, 0⟩
      | .error e =>
          let r := pathOnly po bno files e
          ⟨r.metrics, r.trace, r.logs, r.contentCalls + 1, r.pathCalls⟩
  | fuel + 1, files =>
      match co files with
      | .ok (ms, tr) => ⟨ms, tr, [], 1, 0⟩
      | .error e =>
          if 2 ≤ files.length then
            let mid := max 1 (files.length / 2)
            let lg : LogEntry := ⟨("Retry".toList),
              ("Batch ".toList) ++ natRender bno ++ (" retry: splitting ".toList) ++
                natRender files.length ++ (" files into ".toList) ++ natRender mid ++
                ("+".toList) ++ natRender (files.length - mid) ++
                (" due to error: ".toList) ++ e.msg.take 240⟩
            let l := discoverBatch co po bno fuel (files.take mid)
            let r := discoverBatch co po bno fuel (files.drop mid)
            ⟨l.metrics ++ r.metrics, mergeTrace l.trace r.trace,
              lg :: (l.logs ++ r.logs),
              l.contentCalls + r.contentCalls + 1, l.pathCalls + r.pathCalls⟩
          else
            let r := pathOnly po bno files e
            ⟨r.metrics, r.trace, r.logs, r.contentCalls + 1, r.pathCalls⟩

def cOracleFail : List FileD → Except PyErr (List Json × DTrace) :=
  fun _ => .error ⟨("Exception".toList), ("boom".toList)⟩

def pOracleFail : List (List Char) → Except PyErr (List Json × DTrace) :=
  fun _ => .error ⟨("Exception".toList), ("bam".toList)⟩

/-- A value generated by the mock-data fallback: a boolean, a categorical
label, or a number. -/
inductive MockVal where
  | bool : Bool → MockVal
  | str : List Char → MockVal
  | num : ℚ → MockVal
deriving DecidableEq

/-- One generated entry: its value and the day number of its `recorded_at`
timestamp (the timestamp is the date `now - timedelta(days=d)` at 12:00 UTC,
modeled by the day count `nowDay - d`). -/
structure MEntry where
  value : MockVal
  day : Nat
deriving DecidableEq

/-- An input metric dict: the `id`, `name` and `data_type` keys (absent keys
model as the empty string, which the source treats as falsy). -/
structure MetricIn where
  id : List Char
  name : List Char
  data_type : List Char
deriving DecidableEq

/-- One output item of the mock-data fallback. -/
structure MockOut where
  metric_id : List Char
  metric_name : List Char
  entries : List MEntry
deriving DecidableEq

/-- The `trace` half of the `fallback_mock_data` return value. -/
structure MockTrace where
  fallback : Bool
  patterns : List (List Char)
  assumptions : List (List Char)
deriving DecidableEq

/-- Deterministic PRNG state. The source uses `random.Random(seed_string)`
(a Mersenne Twister, library code); the model keeps the essential property,
that the whole draw stream is a pure function of the seed string, via a
small congruential generator. -/
structure Rng where
  s : Nat
deriving DecidableEq

def rngNext (r : Rng) : Nat × Rng :=
  let s2 := (r.s * 1103515245 + 12345) % 4294967296
  (s2, ⟨s2⟩)

/-- A draw in `[0, 1)`. -/
def rngUnit (r : Rng) : ℚ × Rng :=
  let p := rngNext r
  ((p.1 : ℚ) / 4294967296, p.2)

/-- Model of `rng.uniform(a, b)`. -/
def rngUniform (a b : ℚ) (r : Rng) : ℚ × Rng :=
  let p := rngUnit r
  (a + (b - a) * p.1, p.2)

/-- Model of `rng.gauss(mu, sigma)`: a bounded symmetric surrogate draw; only
its determinism in the state matters for the claims proved here. -/
def rngGauss (mu sigma : ℚ) (r : Rng) : ℚ × Rng :=
  let p := rngUnit r
  (mu + sigma * (6 * p.1 - 3), p.2)

/-- Model of `rng.randint(a, b)` (both ends inclusive). -/
def rngRandint (a b : Nat) (r : Rng) : Nat × Rng :=
  let p := rngNext r
  (a + p.1 % (b - a + 1), p.2)

/-- Model of `rng.sample(range(n), k)`: `k` index draws below `n`. -/
def rngIndices (n : Nat) : Nat → Rng → List Nat × Rng
  | 0, r => ([], r)
  | k + 1, r =>
      let p := rngNext r
      let rest := rngIndices n k p.2
      (p.1 % n :: rest.1, rest.2)

def pickW : List (List Char × ℚ) → ℚ → List Char
  | [], _ => []
  | (l, w) :: rest, u => if u < w then l else pickW rest (u - w)

/-- Model of `rng.choices(labels, weights=..., k=1)[0]`. -/
def rngChoiceW (labels : List (List Char × ℚ)) (r : Rng) : List Char × Rng :=
  let p := rngUnit r
  (pickW labels p.1, p.2)

/-- The RNG seed of `fallback_mock_data`: derived from the seed string
`f"{workspace_name}:{len(metrics)}:v2"` and from nothing else. -/
def seedOf (ws : List Char) (nm : Nat) : Rng :=
  ⟨(ws ++ (":".toList) ++ natRender nm ++ (":v2".toList)).foldl
      (fun h c => (h * 131 + c.toNat) % 4294967296) 0⟩

def containsSub (s kw : List Char) : Bool := (findSub s kw).isSome

def anyKw (n : List Char) (kws : List (List Char)) : Bool :=
  kws.any (fun kw => containsSub n kw)

/-- Embedding of the `infer_kind` helper of `fallback_mock_data`. -/
def infer_kind (metric_name : List Char) : List Char :=
  let n := toLowerL metric_name
  if anyKw n [("error".toList), ("failure".toList), ("fail".toList), ("exception".toList),
      ("crash".toList), ("timeout".toList)] then ("error_rate".toList)
  else if anyKw n [("latency".toList), ("response time".toList), ("duration".toList),
      ("time to".toList), ("ttfb".toList)] then ("latency".toList)
  else if anyKw n [("throughput".toList), ("requests".toList), ("qps".toList),
      ("rps".toList), ("traffic".toList), ("hits".toList)] then ("throughput".toList)
  else if containsSub n ("cache".toList) ∧ (containsSub n ("hit".toList) ∨
      containsSub n ("miss".toList) ∨ containsSub n ("hit rate".toList)) then
    ("cache_hit_rate".toList)
  else if anyKw n [("availability".toList), ("uptime".toList)] then ("availability".toList)
  else if anyKw n [("conversion".toList), ("ctr".toList), ("retention".toList),
      ("churn".toList), ("bounce".toList)] then ("funnel_rate".toList)
  else if anyKw n [("users".toList), ("mau".toList), ("dau".toList), ("wau".toList),
      ("sessions".toList), ("active".toList)] then ("usage".toList)
  else ("generic".toList)

/-- `clamp(x, lo, hi) = max(lo, min(hi, x))`. -/
def clamp (x lo hi : ℚ) : ℚ := max lo (min hi x)

/-- `round(q, 2)` modeled on `ℚ`. -/
def round2 (q : ℚ) : ℚ := ((round (q * 100) : ℤ) : ℚ) / 100

/-- `round(q, 4)` modeled on `ℚ`. -/
def round4 (q : ℚ) : ℚ := ((round (q * 10000) : ℤ) : ℚ) / 10000

/-- The body of `series_random_walk`: 30 mean-reverting noisy steps with
weekly seasonality. -/
def walkGo (baseline volatility mr : ℚ) : Nat → Nat → ℚ → Rng → List ℚ × Rng
  | 0, _, _, r => ([], r)
  | n + 1, i, x, r =>
      let seasonal : ℚ := 1 + (8 : ℚ) / 100 *
        (if i % 7 = 1 ∨ i % 7 = 2 ∨ i % 7 = 3 ∨ i % 7 = 4 ∨ i % 7 = 5 then 1 else -1)
      let drift := (baseline - x) * mr
      let g := rngGauss 0 volatility r
      let x2 := (x + drift + g.1) * seasonal
      let rest := walkGo baseline volatility mr n (i + 1) x2 g.2
      (x2 :: rest.1, rest.2)

def series_random_walk (baseline volatility mr : ℚ) (r : Rng) : List ℚ × Rng :=
  walkGo baseline volatility mr 30 0 baseline r

/-- `for s in sample: vals[s] += sign * rng.uniform(lo, hi)`. -/
def bumpAdd (sign lo hi : ℚ) : List Nat → List ℚ → Rng → List ℚ × Rng
  | [], vals, r => (vals, r)
  | s :: rest, vals, r =>
      let p := rngUniform lo hi r
      bumpAdd sign lo hi rest (vals.set s (vals.getD s 0 + sign * p.1)) p.2

/-- `for s in sample: vals[s] *= rng.uniform(lo, hi)`. -/
def bumpMul (lo hi : ℚ) : List Nat → List ℚ → Rng → List ℚ × Rng
  | [], vals, r => (vals, r)
  | s :: rest, vals, r =>
      let p := rngUniform lo hi r
      bumpMul lo hi rest (vals.set s (vals.getD s 0 * p.1)) p.2

/-- The numeric-branch value series of `fallback_mock_data`, by inferred
kind (fractions are the source's float literals written exactly). -/
def numericVals (kind dt : List Char) (r : Rng) : List ℚ × Rng :=
  if kind = ("error_rate".toList) then
    let b := rngUniform ((1 : ℚ) / 10) 3 r
    let w := series_random_walk b.1 (b.1 * 25 / 100) ((25 : ℚ) / 100) b.2
    let k := rngRandint 1 3 w.2
    let ix := rngIndices 30 k.1 k.2
    let v := bumpAdd 1 4 18 ix.1 w.1 ix.2
    (if dt ≠ ("percentage".toList) then v.1.map (fun x => clamp (x / 100) 0 1)
     else v.1.map (fun x => clamp x 0 100), v.2)
  else if kind = ("cache_hit_rate".toList) then
    let b := rngUniform 78 97 r
    let w := series_random_walk b.1 ((9 : ℚ) / 5) ((3 : ℚ) / 10) b.2
    let k := rngRandint 1 2 w.2
    let ix := rngIndices 30 k.1 k.2
    let v := bumpAdd (-1) 6 15 ix.1 w.1 ix.2
    let v2 := v.1.map (fun x => clamp x 0 100)
    (if dt ≠ ("percentage".toList) then v2.map (fun x => round4 (x / 100)) else v2, v.2)
  else if kind = ("latency".toList) then
    let b := rngUniform 120 900 r
    let w := series_random_walk b.1 (b.1 * 8 / 100) ((1 : ℚ) / 5) b.2
    let k := rngRandint 1 2 w.2
    let ix := rngIndices 30 k.1 k.2
    let v := bumpMul ((8 : ℚ) / 5) ((14 : ℚ) / 5) ix.1 w.1 ix.2
    (v.1.map (fun x => max 0 x), v.2)
  else if kind = ("throughput".toList) ∨ kind = ("usage".toList) then
    let b := if kind = ("throughput".toList) then rngUniform 500 15000 r
      else rngUniform 50 6000 r
    let w := series_random_walk b.1 (b.1 * 10 / 100) ((15 : ℚ) / 100) b.2
    (w.1.map (fun x => max 0 x), w.2)
  else if kind = ("funnel_rate".toList) then
    let b := rngUniform ((4 : ℚ) / 5) 9 r
    let w := series_random_walk b.1 (b.1 * 18 / 100) ((25 : ℚ) / 100) b.2
    let v2 := w.1.map (fun x => clamp x 0 100)
    (if dt ≠ ("percentage".toList) then v2.map (fun x => round4 (x / 100)) else v2, w.2)
  else
    let b := rngUniform 10 800 r
    let w := series_random_walk b.1 (b.1 * 12 / 100) ((3 : ℚ) / 25) b.2
    (w.1.map (fun x => max 0 x), w.2)

/-- The boolean-branch values: one `rng.random() < p_true` draw per day. -/
def boolVals : List Nat → ℚ → Rng → List MockVal × Rng
  | [], _, r => ([], r)
  | _ :: rest, p, r =>
      let u := rngUnit r
      let vs := boolVals rest p u.2
      (MockVal.bool (decide (u.1 < p)) :: vs.1, vs.2)

/-- The weighted label choices of the string branch. -/
def strChoices (nm : List Char) : List (List Char × ℚ) :=
  if anyKw (toLowerL nm) [("status".toList), ("state".toList), ("result".toList)] then
    [(("success".toList), (4 : ℚ) / 5), (("failure".toList), (3 : ℚ) / 25),
     (("pending".toList), (2 : ℚ) / 25)]
  else
    [(("low".toList), (1 : ℚ) / 4), (("medium".toList), (11 : ℚ) / 20),
     (("high".toList), (1 : ℚ) / 5)]

/-- The string-branch values: one weighted choice per day. -/
def strVals : List Nat → List (List Char × ℚ) → Rng → List MockVal × Rng
  | [], _, r => ([], r)
  | _ :: rest, ch, r =>
      let c := rngChoiceW ch r
      let vs := strVals rest ch c.2
      (MockVal.str c.1 :: vs.1, vs.2)

/-- The per-entry values of the numeric branch: `v = vals[idx] if idx < len
else 0.0`, rounded (and for percentages first clamped to `[0, 100]`). -/
def numValList (isPct : Bool) (vals : List ℚ) (c : Nat) : List MockVal :=
  (List.range c).map (fun idx =>
    MockVal.num (if isPct then round2 (clamp (vals.getD idx 0) 0 100)
      else round2 (vals.getD idx 0)))

/-- Pair each generated value with its day's timestamp. -/
def mkEntries (vs : List MockVal) (days : List Nat) (nowDay : Nat) : List MEntry :=
  List.zipWith (fun v d => ⟨v, nowDay - d⟩) vs days

/-- `dt = (m.get("data_type") or "number").strip().lower()`. -/
def dtOf (m : MetricIn) : List Char :=
  toLowerL (pyStrip (if m.data_type.isEmpty then ("number".toList) else m.data_type))

/-- `name = (m.get("name") or "").strip() or "metric"`. -/
def nameOf (m : MetricIn) : List Char :=
  if (pyStrip m.name).isEmpty then ("metric".toList) else pyStrip m.name

/-- The per-metric body of `fallback_mock_data`'s output loop. -/
def metricOut (nowDay : Nat) (m : MetricIn) (r : Rng) : MockOut × Rng :=
  let nm := nameOf m
  let dt := dtOf m
  let kind := infer_kind nm
  let days := (List.range 30).reverse
  let p :=
    if dt = ("boolean".toList) then
      boolVals days (if kind = ("availability".toList) then (97 : ℚ) / 100
        else (7 : ℚ) / 10) r
    else if dt = ("string".toList) then
      strVals days (strChoices nm) r
    else
      let q := numericVals kind dt r
      (numValList (dt == ("percentage".toList)) q.1 days.length, q.2)
  (⟨pyStrip m.id, nm, mkEntries p.1 days nowDay⟩, p.2)

/-- The `for m in metrics` loop, threading the shared RNG. -/
def mockLoop (nowDay : Nat) : List MetricIn → Rng → List MockOut
  | [], _ => []
  | m :: rest, r =>
      (metricOut nowDay m r).1 :: mockLoop nowDay rest (metricOut nowDay m r).2

def mockFallbackPatterns : List (List Char) :=
  [("Generated ~30 daily points per metric (last 30 days)".toList),
   ("Used metric-name heuristics (error spikes, cache dips, weekly seasonality, noisy latency)".toList),
   ("Applied mean-reverting random walk + anomalies for realism".toList)]

def mockFallbackAssumptions : List (List Char) :=
  [("Used deterministic RNG seeded by workspace name for reproducibility".toList)]

/-- Embedding of `fallback_mock_data` (`llm_service.py:862-979`): `nowDay` is
the wall-clock date read from `datetime.now(timezone.utc)`, made an explicit
parameter. -/
def fallback_mock_data (nowDay : Nat) (workspace_name : List Char)
    (metrics : List MetricIn) : List MockOut × MockTrace :=
  (mockLoop nowDay metrics (seedOf workspace_name metrics.length),
   ⟨true, mockFallbackPatterns, mockFallbackAssumptions⟩)

def defMetricIn : MetricIn := ⟨[], [], []⟩

def defMockOut : MockOut := ⟨[], [], []⟩

/-- The clock-free view of an output item: its ids and its entry values,
with the timestamps dropped. -/
def valueView (o : MockOut) : List Char × List Char × List MockVal :=
  (o.metric_id, o.metric_name, o.entries.map (fun e => e.value))

def pctMetric : MetricIn := ⟨("m1".toList), ("Error Rate".toList), ("percentage".toList)⟩

def boolMetric : MetricIn := ⟨("m2".toList), ("Availability".toList), ("boolean".toList)⟩

/-- `norm(s)`: lower-cased alphanumeric characters of the stripped string
(`"".join(ch.lower() for ch in (s or "").strip() if ch.isalnum())`). -/
def pyNorm (s : List Char) : List Char :=
  (pyStrip s).filterMap (fun c => if c.isAlphanum then some c.toLower else none)

/-- The two `project_summary` keys `_heuristic_metric_fallback` reads
(a non-dict summary models as `none`: empty domain, no entities). -/
structure HSummary where
  domain : List Char
  key_entities : List (List Char)

/-- One evidence reference of a heuristic metric. -/
structure HEvidence where
  path : List Char
  signal : List Char
deriving DecidableEq

/-- One metric dict proposed by the heuristic fallback. -/
structure HMetric where
  name : List Char
  description : List Char
  category : List Char
  data_type : List Char
  suggested_source : List Char
  source_table : List Char
  source_platform : List Char
  estimated_value : List Char
  evidence : List HEvidence
deriving DecidableEq

/-- The trace dict returned by the heuristic fallback. -/
structure HTrace where
  fallback : Bool
  fallback_reason : List Char
  batch_observations : List (List Char)
  shortlist_criteria : List (List Char)
  files_referenced : List (List Char)
deriving DecidableEq

/-- `any(any(k in p for k in keys) for p in paths_l)`. -/
def hasAnyPath (paths_l : List (List Char)) (keys : List (List Char)) : Bool :=
  paths_l.any (fun p => keys.any (fun k => containsSub p k))

/-- The `add_metric` helper: dedup by normalized name, evidence capped at 3
paths, constant table/platform, empty estimated value. The state is the
`(metrics, seen)` pair. -/
def addMetric (st : List HMetric × List (List Char))
    (name description category data_type suggested_source : List Char)
    (evidence_paths : List (List Char)) : List HMetric × List (List Char) :=
  let key := pyNorm name
  if key.isEmpty ∨ key ∈ st.2 then st
  else
    (st.1 ++ [⟨name, description, category, data_type, suggested_source,
        ("metric_entries".toList), ("SQLite".toList), [],
        (evidence_paths.take 3).map
          (fun p => ⟨p, ("Path signal used for heuristic fallback.".toList)⟩)⟩],
     st.2 ++ [key])

/-- The `for ent in entities[:2]` loop of the heuristic fallback. -/
def entLoop (top_paths : List (List Char)) :
    List (List Char) → (List HMetric × List (List Char)) → List HMetric × List (List Char)
  | [], st => st
  | ent :: rest, st =>
      let es := pyStrip ent
      if es.isEmpty then entLoop top_paths rest st
      else
        entLoop top_paths rest (addMetric st
          (("New ".toList) ++ es ++ (" Created (Daily)".toList))
          (("Count of new ".toList) ++ es ++ (" records created per day.".toList))
          (if toLowerL es = ("post".toList) ∨ toLowerL es = ("comment".toList) ∨
              toLowerL es = ("article".toList) ∨ toLowerL es = ("document".toList)
            then ("content".toList) else ("business".toList))
          ("number".toList)
          (("Track create operations for ".toList) ++ es ++
            (" (DB insert or create endpoint).".toList))
          top_paths)

/-- The metric list of `_heuristic_metric_fallback` before the final
`[:max_metrics]` cut: core metrics, the signal-conditional metrics, the
entity metrics, and the small-set padding, in source order. -/
def heuristicMetricsAll (project_summary : Option HSummary)
    (file_paths : List (List Char)) : List HMetric :=
  let paths := file_paths.filter (fun p => ¬ (pyStrip p).isEmpty)
  let paths_l := paths.map toLowerL
  let domain := match project_summary with | some s => pyStrip s.domain | none => []
  let entities := match project_summary with | some s => s.key_entities | none => []
  let top_paths := paths.take 25
  let st0 : List HMetric × List (List Char) := ([], [])
  let st1 := addMetric st0 ("API Error Rate".toList)
    ("Percentage of requests resulting in 4xx/5xx errors.".toList)
    ("performance".toList) ("percentage".toList)
    ("Instrument HTTP layer / middleware; aggregate status codes over time.".toList)
    top_paths
  let st2 := addMetric st1 ("API Latency (P95)".toList)
    ("95th percentile response time for API requests.".toList)
    ("performance".toList) ("number".toList)
    ("Record request duration in middleware; compute P95 daily.".toList) top_paths
  let st3 := addMetric st2 ("Request Volume".toList)
    ("Total API requests per day.".toList) ("performance".toList) ("number".toList)
    ("Count requests at the HTTP entrypoint (routes/controllers).".toList) top_paths
  let st4 :=
    if hasAnyPath paths_l [("auth".toList), ("login".toList), ("signup".toList),
        ("jwt".toList), ("oauth".toList)] then
      let stA := addMetric st3 ("Login Success Rate".toList)
        ("Percentage of login attempts that succeed.".toList)
        ("engagement".toList) ("percentage".toList)
        ("Track auth/login endpoints; success vs failure counts.".toList)
        ((paths.filter (fun p => containsSub (toLowerL p) ("auth".toList) ∨
          containsSub (toLowerL p) ("login".toList))).take 25)
      addMetric stA ("Active Users (Daily)".toList)
        ("Unique users active per day (based on session/auth events).".toList)
        ("engagement".toList) ("number".toList)
        ("Derive from session creation or authenticated requests.".toList)
        ((paths.filter (fun p => containsSub (toLowerL p) ("auth".toList) ∨
          containsSub (toLowerL p) ("user".toList))).take 25)
    else st3
  let st5 :=
    if hasAnyPath paths_l [("stripe".toList), ("payment".toList), ("billing".toList),
        ("invoice".toList), ("subscription".toList)] ∨
        containsSub (toLowerL domain) ("billing".toList) then
      let stB := addMetric st4 ("Payment Success Rate".toList)
        ("Percentage of payment intents/charges that succeed.".toList)
        ("business".toList) ("percentage".toList)
        ("Track payment provider callbacks or billing service results.".toList)
        ((paths.filter (fun p => [("stripe".toList), ("payment".toList),
          ("billing".toList)].any (fun k => containsSub (toLowerL p) k))).take 25)
      addMetric stB ("New Subscriptions (Daily)".toList)
        ("Count of new subscriptions created per day.".toList)
        ("growth".toList) ("number".toList)
        ("Track subscription creation events in billing workflows.".toList)
        ((paths.filter (fun p => containsSub (toLowerL p) ("subscription".toList))).take 25)
    else st4
  let st6 :=
    if hasAnyPath paths_l [("redis".toList), ("cache".toList)] then
      addMetric st5 ("Cache Hit Rate".toList)
        ("Percentage of cache lookups that are hits.".toList)
        ("performance".toList) ("percentage".toList)
        ("Instrument cache wrapper; hits/(hits+misses).".toList)
        ((paths.filter (fun p => containsSub (toLowerL p) ("cache".toList) ∨
          containsSub (toLowerL p) ("redis".toList))).take 25)
    else st5
  let st7 :=
    if hasAnyPath paths_l [("migrations".toList), ("schema".toList), ("prisma".toList),
        ("sequelize".toList), ("alembic".toList)] ∨
        hasAnyPath paths_l [("db".toList), ("database".toList)] then
      addMetric st6 ("Database Query Latency (Avg)".toList)
        ("Average latency of database queries.".toList)
        ("performance".toList) ("number".toList)
        ("Instrument ORM/database client timings; average daily.".toList)
        ((paths.filter (fun p => [("migrations".toList), ("schema".toList),
          ("prisma".toList), ("alembic".toList), ("db".toList)].any
            (fun k => containsSub (toLowerL p) k))).take 25)
    else st6
  let st8 := entLoop top_paths (entities.take 2) st7
  let st9 :=
    if st8.1.length < 6 then
      let stC := addMetric st8 ("Background Job Failures".toList)
        ("Count of background/async job failures per day.".toList)
        ("performance".toList) ("number".toList)
        ("Track task runner/job queue errors (worker logs).".toList) top_paths
      addMetric stC ("Feature Adoption (Top Feature)".toList)
        ("Daily count of a key feature action (project-specific).".toList)
        ("engagement".toList) ("number".toList)
        ("Track a core endpoint/event that represents feature usage.".toList) top_paths
    else st8
  st9.1

/-- The `observations` list: the first 8 path signals, or the safe-default
message when none fired. -/
def heuristicObservations (file_paths : List (List Char)) : List (List Char) :=
  let paths := file_paths.filter (fun p => ¬ (pyStrip p).isEmpty)
  let paths_l := paths.map toLowerL
  let signals :=
    (if hasAnyPath paths_l [("package.json".toList), ("pnpm-lock".toList),
        ("yarn.lock".toList), ("vite.config".toList), ("next.config".toList)] then
      [("Detected Node/JS frontend/backend signals (package.json / Vite/Next).".toList)]
     else []) ++
    (if hasAnyPath paths_l [("requirements.txt".toList), ("pyproject.toml".toList),
        ("poetry.lock".toList), ("pipfile".toList)] then
      [("Detected Python signals (requirements/pyproject).".toList)] else []) ++
    (if hasAnyPath paths_l [("dockerfile".toList), ("docker-compose".toList),
        (".github/workflows".toList)] then
      [("Detected deployment/CI signals (Docker / GitHub Actions).".toList)] else []) ++
    (if hasAnyPath paths_l [("migrations".toList), ("schema".toList), ("prisma".toList),
        ("sequelize".toList), ("alembic".toList)] then
      [("Detected database schema/migration signals (migrations/schema tooling).".toList)]
     else []) ++
    (if hasAnyPath paths_l [("routes".toList), ("controller".toList), ("handler".toList),
        ("api/".toList), ("routers".toList), ("endpoints".toList)] then
      [("Detected API surface signals (routes/controllers/handlers).".toList)] else []) ++
    (if hasAnyPath paths_l [("auth".toList), ("login".toList), ("signup".toList),
        ("jwt".toList), ("oauth".toList)] then
      [("Detected authentication signals (auth/login/jwt/oauth).".toList)] else []) ++
    (if hasAnyPath paths_l [("redis".toList), ("cache".toList)] then
      [("Detected caching signals (redis/cache).".toList)] else []) ++
    (if hasAnyPath paths_l [("stripe".toList), ("payment".toList), ("billing".toList),
        ("invoice".toList), ("subscription".toList)] then
      [("Detected billing signals (stripe/payment/subscription).".toList)] else [])
  if signals.isEmpty then
    [("No strong framework/domain signals from paths; using safe default metric set.".toList)]
  else signals.take 8

/-- Embedding of `_heuristic_metric_fallback` (`llm_service.py:117-333`):
a function of the project summary, the file paths and `max_metrics` alone —
it reads no clock and draws no randomness. -/
def heuristic_metric_fallback (project_summary : Option HSummary)
    (file_paths : List (List Char)) (max_metrics : Nat) : List HMetric × HTrace :=
  let paths := file_paths.filter (fun p => ¬ (pyStrip p).isEmpty)
  ((heuristicMetricsAll project_summary file_paths).take max_metrics,
   ⟨true,
    ("LLM providers failed; generated a heuristic metric set from file-path signals.".toList),
    heuristicObservations file_paths,
    [("Prefer metrics that can be measured from request logs / DB events".toList),
     ("Include at least 3 performance/health indicators".toList),
     ("Add domain/auth/billing metrics when path signals exist".toList),
     ("Reference only file/path evidence (no code snippets)".toList)],
    paths.take (min 15 paths.length)⟩)

theorem digitChar_isDigit {m : Nat} (h : m < 10) : (Nat.digitChar m).isDigit = true := by
  interval_cases m <;> decide

theorem digitChar_toNat {m : Nat} (h : m < 10) : (Nat.digitChar m).toNat = m + 48 := by
  interval_cases m <;> decide

theorem natToDigitsAux_shift (n : Nat) : ∀ acc, natToDigitsAux n acc = natToDigitsAux n [] ++ acc := by
  induction n using Nat.strong_induction_on with
  | _ n ih =>
    intro acc
    by_cases h : n = 0
    · subst h
      simp [natToDigitsAux]
    · have hdiv : n / 10 < n := Nat.div_lt_self (Nat.pos_of_ne_zero h) (by norm_num)
      conv_lhs => rw [natToDigitsAux]
      conv_rhs => rw [natToDigitsAux]
      simp only [if_neg h]
      rw [ih _ hdiv (Nat.digitChar (n % 10) :: acc), ih _ hdiv [Nat.digitChar (n % 10)]]
      simp

theorem natToDigitsAux_digits (n : Nat) : ∀ c ∈ natToDigitsAux n [], c.isDigit = true := by
  induction n using Nat.strong_induction_on with
  | _ n ih =>
    intro c hc
    by_cases h : n = 0
    · subst h; rw [natToDigitsAux] at hc; simp at hc
    · have hdiv : n / 10 < n := Nat.div_lt_self (Nat.pos_of_ne_zero h) (by norm_num)
      rw [natToDigitsAux, if_neg h, natToDigitsAux_shift] at hc
      rcases List.mem_append.mp hc with h1 | h1
      · exact ih _ hdiv c h1
      · have : c = Nat.digitChar (n % 10) := by simpa using h1
        subst this
        exact digitChar_isDigit (Nat.mod_lt _ (by norm_num))

theorem natToDigitsAux_ne_nil {n : Nat} (h : n ≠ 0) : natToDigitsAux n [] ≠ [] := by
  rw [natToDigitsAux, if_neg h, natToDigitsAux_shift]
  simp

theorem digitsToNat_append (xs : List Char) (d : Char) :
    digitsToNat (xs ++ [d]) = 10 * digitsToNat xs + (d.toNat - 48) := by
  simp [digitsToNat, List.foldl_append, Nat.mul_comm]

theorem digitsToNat_natToDigitsAux (n : Nat) : digitsToNat (natToDigitsAux n []) = n := by
  induction n using Nat.strong_induction_on with
  | _ n ih =>
    by_cases h : n = 0
    · subst h; rw [natToDigitsAux]; simp [digitsToNat]
    · have hdiv : n / 10 < n := Nat.div_lt_self (Nat.pos_of_ne_zero h) (by norm_num)
      rw [natToDigitsAux, if_neg h, natToDigitsAux_shift, digitsToNat_append,
        ih _ hdiv, digitChar_toNat (Nat.mod_lt _ (by norm_num))]
      omega

theorem natRender_digits (n : Nat) : ∀ c ∈ natRender n, c.isDigit = true := by
  unfold natRender
  by_cases h : n = 0
  · simp [h]
  · simp only [if_neg h]
    exact natToDigitsAux_digits n

theorem natRender_ne_nil (n : Nat) : natRender n ≠ [] := by
  unfold natRender
  by_cases h : n = 0
  · simp [h]
  · simp only [if_neg h]
    exact natToDigitsAux_ne_nil h

theorem digitsToNat_natRender (n : Nat) : digitsToNat (natRender n) = n := by
  unfold natRender
  by_cases h : n = 0
  · simp [h, digitsToNat]
  · simp only [if_neg h]
    exact digitsToNat_natToDigitsAux n

theorem takeDigits_exact (ds : List Char) : ∀ rest, (∀ c ∈ ds, c.isDigit = true) →
    noDigitHead rest = true → takeDigits (ds ++ rest) = (ds, rest) := by
  induction ds with
  | nil =>
    intro rest _ hr
    cases rest with
    | nil => rfl
    | cons c r =>
      simp only [noDigitHead, Bool.not_eq_true'] at hr
      simp [takeDigits, hr]
  | cons d ds ih =>
    intro rest hds hr
    have hd : d.isDigit = true := hds d (by simp)
    simp only [List.cons_append, takeDigits, hd, if_true, List.append_eq]
    rw [ih rest (fun c hc => hds c (by simp [hc])) hr]

theorem skipWs_cons {c : Char} (h : pyIsSpace c = false) (t : List Char) :
    skipWs (c :: t) = c :: t := by
  simp [skipWs, h]

theorem isDigit_not_space {c : Char} (h : c.isDigit = true) : pyIsSpace c = false := by
  by_cases e1 : c = ' '
  · subst e1; exact absurd h (by decide)
  by_cases e2 : c = '\t'
  · subst e2; exact absurd h (by decide)
  by_cases e3 : c = '\n'
  · subst e3; exact absurd h (by decide)
  by_cases e4 : c = '\r'
  · subst e4; exact absurd h (by decide)
  by_cases e5 : c = Char.ofNat 11
  · subst e5; exact absurd h (by decide)
  by_cases e6 : c = Char.ofNat 12
  · subst e6; exact absurd h (by decide)
  simp [pyIsSpace, e1, e2, e3, e4, e5, e6]

theorem isDigit_ne_rbrack {c : Char} (h : c.isDigit = true) : c ≠ chRBrack := by
  intro hc; subst hc; simp [chRBrack] at h

/-- Every rendered JSON value starts with a character that is neither
whitespace nor a closing bracket. -/
theorem jsonRender_head (v : Json) :
    ∃ c cs, jsonRender v = c :: cs ∧ pyIsSpace c = false ∧ c ≠ chRBrack := by
  cases v with
  | null => exact ⟨'n', ['u', 'l', 'l'], by simp [jsonRender], by decide, by decide⟩
  | bool b =>
    cases b
    · exact ⟨'f', ['a', 'l', 's', 'e'], by simp [jsonRender], by decide, by decide⟩
    · exact ⟨'t', ['r', 'u', 'e'], by simp [jsonRender], by decide, by decide⟩
  | num i =>
    by_cases h : i < 0
    · exact ⟨'-', natRender i.natAbs, by simp [jsonRender, intRender, h], by decide, by decide⟩
    · have hrender : jsonRender (.num i) = natRender i.natAbs := by
        simp [jsonRender, intRender, h]
      obtain ⟨d, ds, hds⟩ := List.exists_cons_of_ne_nil (natRender_ne_nil i.natAbs)
      have hd : d.isDigit = true := natRender_digits i.natAbs d (by rw [hds]; simp)
      exact ⟨d, ds, by rw [hrender, hds], isDigit_not_space hd, isDigit_ne_rbrack hd⟩
  | str s => exact ⟨'"', escapeStr s ++ ['"'], by simp [jsonRender], by decide, by decide⟩
  | arr xs =>
    exact ⟨chLBrack, jsonRenderElems xs ++ [chRBrack], by simp [jsonRender], by decide, by decide⟩
  | obj kvs =>
    exact ⟨chLBrace, jsonRenderMembers kvs ++ [chRBrace], by simp [jsonRender], by decide, by decide⟩

theorem strBody_lit (c : Char) (h1 : ¬c = '"') (h2 : ¬c = '\\') (f : Nat) (t : List Char) :
    strBody (f + 1) (c :: t) = (fun p => (c :: p.1, p.2)) <$> strBody f t := by
  rw [strBody.eq_def]
  simp [h1, h2]

theorem strBody_esc (e d : Char) (he : ¬e = 'u') (hd : escDecode e = some d) (f : Nat)
    (t : List Char) :
    strBody (f + 1) ('\\' :: e :: t) = (fun p => (d :: p.1, p.2)) <$> strBody f t := by
  rw [strBody.eq_def]
  simp [he, hd]

theorem strBody_quote (f : Nat) (t : List Char) : strBody (f + 1) ('"' :: t) = some ([], t) := by
  rw [strBody.eq_def]
  simp

theorem strBody_escape (s : List Char) : ∀ fuel rest, (escapeStr s).length < fuel →
    strBody fuel (escapeStr s ++ '"' :: rest) = some (s, rest) := by
  induction s with
  | nil =>
    intro fuel rest h
    obtain ⟨f, rfl⟩ : ∃ f, fuel = f + 1 := ⟨fuel - 1, by omega⟩
    simp only [escapeStr, List.map_nil, List.flatten_nil, List.nil_append]
    exact strBody_quote f rest
  | cons c cs ih =>
    intro fuel rest h
    have hesc : escapeStr (c :: cs) = escapeChar c ++ escapeStr cs := by
      simp [escapeStr]
    rw [hesc, List.append_assoc]
    rw [hesc] at h
    have hgrow : 1 ≤ (escapeChar c).length ∧ (escapeChar c).length ≤ 2 := by
      unfold escapeChar
      split_ifs <;> simp
    obtain ⟨f, rfl⟩ : ∃ f, fuel = f + 1 := ⟨fuel - 1, by omega⟩
    have hf : (escapeStr cs).length < f := by
      simp only [List.length_append] at h
      omega
    by_cases h1 : c = '"'
    · subst h1
      show strBody (f + 1) ('\\' :: '"' :: (escapeStr cs ++ '"' :: rest)) = _
      rw [strBody_esc '"' '"' (by decide) (by decide), ih f rest hf]
      rfl
    by_cases h2 : c = '\\'
    · subst h2
      show strBody (f + 1) ('\\' :: '\\' :: (escapeStr cs ++ '"' :: rest)) = _
      rw [strBody_esc '\\' '\\' (by decide) (by decide), ih f rest hf]
      rfl
    by_cases h3 : c = '\n'
    · subst h3
      show strBody (f + 1) ('\\' :: 'n' :: (escapeStr cs ++ '"' :: rest)) = _
      rw [strBody_esc 'n' '\n' (by decide) (by decide), ih f rest hf]
      rfl
    by_cases h4 : c = '\t'
    · subst h4
      show strBody (f + 1) ('\\' :: 't' :: (escapeStr cs ++ '"' :: rest)) = _
      rw [strBody_esc 't' '\t' (by decide) (by decide), ih f rest hf]
      rfl
    by_cases h5 : c = '\r'
    · subst h5
      show strBody (f + 1) ('\\' :: 'r' :: (escapeStr cs ++ '"' :: rest)) = _
      rw [strBody_esc 'r' '\r' (by decide) (by decide), ih f rest hf]
      rfl
    · have hc : escapeChar c = [c] := by
        simp [escapeChar, h1, h2, h3, h4, h5]
      rw [hc, List.cons_append, List.nil_append, strBody_lit c h1 h2, ih f rest hf]
      rfl

theorem strBodyFull_escape (s rest : List Char) :
    strBodyFull (escapeStr s ++ '"' :: rest) = some (s, rest) := by
  unfold strBodyFull
  apply strBody_escape
  simp only [List.length_append, List.length_cons]
  omega

theorem jfuel_pos (v : Json) : 1 ≤ jfuel v := by
  cases v <;> simp [jfuel]

theorem jfuelElems_pos (xs : List Json) : 1 ≤ jfuelElems xs := by
  cases xs with
  | nil => simp [jfuelElems]
  | cons x rest => simp [jfuelElems]; omega

theorem jfuelMembers_pos (kvs : List (List Char × Json)) : 1 ≤ jfuelMembers kvs := by
  cases kvs with
  | nil => simp [jfuelMembers]
  | cons kv rest => obtain ⟨k, v⟩ := kv; simp [jfuelMembers]; omega

theorem jsonRenderElems_cons (x : Json) (l : List Json) :
    ∃ T, jsonRenderElems (x :: l) = jsonRender x ++ T := by
  cases l with
  | nil => exact ⟨[], by simp [jsonRenderElems]⟩
  | cons y r => exact ⟨',' :: jsonRenderElems (y :: r), by simp [jsonRenderElems]⟩

theorem jVal_succ (f : Nat) (s : List Char) :
    jVal (f + 1) s = (match skipWs s with
      | [] => none
      | c :: rest =>
          if c.isDigit then
            match takeDigits (c :: rest) with
            | (ds, r2) => some (.num (digitsToNat ds), r2)
          else if c = '-' then
            match takeDigits rest with
            | ([], _) => none
            | (ds, r2) => some (.num (-(digitsToNat ds : Int)), r2)
          else if c = 'n' then
            if rest.take 3 = ['u', 'l', 'l'] then some (.null, rest.drop 3) else none
          else if c = 't' then
            if rest.take 3 = ['r', 'u', 'e'] then some (.bool true, rest.drop 3) else none
          else if c = 'f' then
            if rest.take 4 = ['a', 'l', 's', 'e'] then some (.bool false, rest.drop 4) else none
          else if c = '"' then
            (fun p => (Json.str p.1, p.2)) <$> strBodyFull rest
          else if c = chLBrack then
            match skipWs rest with
            | c2 :: r2 =>
                if c2 = chRBrack then some (.arr [], r2)
                else (fun p => (Json.arr p.1, p.2)) <$> jElems f (c2 :: r2)
            | [] => none
          else if c = chLBrace then
            match skipWs rest with
            | c2 :: r2 =>
                if c2 = chRBrace then some (.obj [], r2)
                else (fun p => (Json.obj p.1, p.2)) <$> jMembers f (c2 :: r2)
            | [] => none
          else none) := rfl

mutual

theorem jVal_render (v : Json) (fuel : Nat) (rest : List Char)
    (hfuel : jfuel v ≤ fuel) (hrest : noDigitHead rest = true) :
    jVal fuel (jsonRender v ++ rest) = some (v, rest) := by
  obtain ⟨f, rfl⟩ : ∃ f, fuel = f + 1 := ⟨fuel - 1, by have := jfuel_pos v; omega⟩
  cases v with
  | null =>
    rw [show jsonRender .null = ['n', 'u', 'l', 'l'] from by simp [jsonRender]]
    rfl
  | bool b =>
    cases b
    · rw [show jsonRender (.bool false) = ['f', 'a', 'l', 's', 'e'] from by simp [jsonRender]]
      rfl
    · rw [show jsonRender (.bool true) = ['t', 'r', 'u', 'e'] from by simp [jsonRender]]
      rfl
  | num i =>
    by_cases hneg : i < 0
    · rw [show jsonRender (.num i) = '-' :: natRender i.natAbs from by
        simp [jsonRender, intRender, hneg]]
      rw [List.cons_append]
      rw [show jVal (f + 1) ('-' :: (natRender i.natAbs ++ rest)) =
          (match takeDigits (natRender i.natAbs ++ rest) with
            | ([], _) => none
            | (ds, r2) => some (.num (-(digitsToNat ds : Int)), r2)) from rfl]
      rw [takeDigits_exact (natRender i.natAbs) rest (natRender_digits _) hrest]
      obtain ⟨d, ds, hds⟩ := List.exists_cons_of_ne_nil (natRender_ne_nil i.natAbs)
      rw [hds]
      show some (Json.num (-(digitsToNat (d :: ds) : Int)), rest) = some (Json.num i, rest)
      rw [← hds, digitsToNat_natRender]
      have hi : -(i.natAbs : Int) = i := by omega
      rw [hi]
    · rw [show jsonRender (.num i) = natRender i.natAbs from by
        simp [jsonRender, intRender, hneg]]
      obtain ⟨d, ds, hds⟩ := List.exists_cons_of_ne_nil (natRender_ne_nil i.natAbs)
      have hd : d.isDigit = true := natRender_digits i.natAbs d (by rw [hds]; simp)
      rw [hds, List.cons_append, jVal_succ, skipWs_cons (isDigit_not_space hd)]
      simp only [hd, if_true]
      rw [show d :: (ds ++ rest) = (d :: ds) ++ rest from rfl, ← hds,
        takeDigits_exact (natRender i.natAbs) rest (natRender_digits _) hrest]
      simp only [digitsToNat_natRender]
      have hi : ((i.natAbs : Int)) = i := by omega
      rw [hi]
  | str s =>
    rw [show jsonRender (.str s) = '"' :: (escapeStr s ++ ['"']) from by simp [jsonRender]]
    rw [List.cons_append, List.append_assoc]
    rw [show ['"'] ++ rest = '"' :: rest from rfl]
    show (fun p => (Json.str p.1, p.2)) <$> strBodyFull (escapeStr s ++ '"' :: rest) =
      some (Json.str s, rest)
    rw [strBodyFull_escape]
    rfl
  | arr xs =>
    rw [show jsonRender (.arr xs) = chLBrack :: (jsonRenderElems xs ++ [chRBrack]) from by
      simp [jsonRender]]
    rw [List.cons_append, List.append_assoc]
    rw [show [chRBrack] ++ rest = chRBrack :: rest from rfl]
    cases xs with
    | nil =>
      rw [show jsonRenderElems [] = [] from by simp [jsonRenderElems]]
      rfl
    | cons x xs2 =>
      show (match skipWs (jsonRenderElems (x :: xs2) ++ chRBrack :: rest) with
        | c2 :: r2 =>
            if c2 = chRBrack then some (.arr [], r2)
            else (fun p => (Json.arr p.1, p.2)) <$> jElems f (c2 :: r2)
        | [] => none) = some (Json.arr (x :: xs2), rest)
      obtain ⟨T, hT⟩ := jsonRenderElems_cons x xs2
      obtain ⟨c, cs, hc, hcs, hcr⟩ := jsonRender_head x
      have hshape : jsonRenderElems (x :: xs2) ++ chRBrack :: rest =
          c :: (cs ++ T ++ chRBrack :: rest) := by
        rw [hT, hc]
        simp
      rw [hshape, skipWs_cons hcs]
      simp only [if_neg hcr]
      rw [← hshape]
      rw [jElems_render (x :: xs2) f rest (by simp) (by
        have h2 : jfuel (.arr (x :: xs2)) = 1 + jfuelElems (x :: xs2) := by simp [jfuel]
        omega)]
      rfl
  | obj kvs =>
    rw [show jsonRender (.obj kvs) = chLBrace :: (jsonRenderMembers kvs ++ [chRBrace]) from by
      simp [jsonRender]]
    rw [List.cons_append, List.append_assoc]
    rw [show [chRBrace] ++ rest = chRBrace :: rest from rfl]
    cases kvs with
    | nil =>
      rw [show jsonRenderMembers [] = [] from by simp [jsonRenderMembers]]
      rfl
    | cons kv kvs2 =>
      obtain ⟨k, v⟩ := kv
      show (match skipWs (jsonRenderMembers ((k, v) :: kvs2) ++ chRBrace :: rest) with
        | c2 :: r2 =>
            if c2 = chRBrace then some (.obj [], r2)
            else (fun p => (Json.obj p.1, p.2)) <$> jMembers f (c2 :: r2)
        | [] => none) = some (Json.obj ((k, v) :: kvs2), rest)
      have hshape : ∃ T, jsonRenderMembers ((k, v) :: kvs2) ++ chRBrace :: rest =
          '"' :: (T ++ chRBrace :: rest) := by
        cases kvs2 with
        | nil => exact ⟨escapeStr k ++ '"' :: ':' :: jsonRender v, by simp [jsonRenderMembers]⟩
        | cons m r =>
          exact ⟨escapeStr k ++ '"' :: ':' :: jsonRender v ++ ',' :: jsonRenderMembers (m :: r),
            by simp [jsonRenderMembers]⟩
      obtain ⟨T, hT⟩ := hshape
      rw [hT, skipWs_cons (by decide)]
      simp only [if_neg (show ('"' : Char) ≠ chRBrace from by decide)]
      rw [← hT]
      rw [jMembers_render ((k, v) :: kvs2) f rest (by simp) (by
        have h2 : jfuel (.obj ((k, v) :: kvs2)) = 1 + jfuelMembers ((k, v) :: kvs2) := by
          simp [jfuel]
        omega)]
      rfl

theorem jElems_render (xs : List Json) (fuel : Nat) (rest : List Char)
    (hne : xs ≠ []) (hfuel : jfuelElems xs ≤ fuel) :
    jElems fuel (jsonRenderElems xs ++ chRBrack :: rest) = some (xs, rest) := by
  obtain ⟨f, rfl⟩ : ∃ f, fuel = f + 1 := ⟨fuel - 1, by have := jfuelElems_pos xs; omega⟩
  match xs, hne with
  | x :: xs2, _ =>
    have hfx : jfuel x ≤ f := by
      have h2 : jfuelElems (x :: xs2) = 1 + jfuel x + jfuelElems xs2 := by simp [jfuelElems]
      omega
    cases xs2 with
    | nil =>
      rw [show jsonRenderElems [x] = jsonRender x from by simp [jsonRenderElems]]
      show (do
        let (v, r) ← jVal f (jsonRender x ++ chRBrack :: rest)
        match skipWs r with
        | c :: r2 =>
            if c = ',' then (fun p => (v :: p.1, p.2)) <$> jElems f r2
            else if c = chRBrack then some ([v], r2)
            else none
        | [] => none) = some ([x], rest)
      rw [jVal_render x f (chRBrack :: rest) hfx rfl]
      rfl
    | cons y ys =>
      rw [show jsonRenderElems (x :: y :: ys) = jsonRender x ++ ',' :: jsonRenderElems (y :: ys)
        from by simp [jsonRenderElems]]
      rw [List.append_assoc, List.cons_append]
      show (do
        let (v, r) ← jVal f (jsonRender x ++ ',' :: (jsonRenderElems (y :: ys) ++
          chRBrack :: rest))
        match skipWs r with
        | c :: r2 =>
            if c = ',' then (fun p => (v :: p.1, p.2)) <$> jElems f r2
            else if c = chRBrack then some ([v], r2)
            else none
        | [] => none) = some (x :: y :: ys, rest)
      rw [jVal_render x f (',' :: (jsonRenderElems (y :: ys) ++ chRBrack :: rest)) hfx rfl]
      show (fun p => (x :: p.1, p.2)) <$>
        jElems f (jsonRenderElems (y :: ys) ++ chRBrack :: rest) = some (x :: y :: ys, rest)
      rw [jElems_render (y :: ys) f rest (by simp) (by
        have h2 : jfuelElems (x :: y :: ys) = 1 + jfuel x + jfuelElems (y :: ys) := by
          simp [jfuelElems]
        omega)]
      rfl

theorem jMembers_render (kvs : List (List Char × Json)) (fuel : Nat) (rest : List Char)
    (hne : kvs ≠ []) (hfuel : jfuelMembers kvs ≤ fuel) :
    jMembers fuel (jsonRenderMembers kvs ++ chRBrace :: rest) = some (kvs, rest) := by
  obtain ⟨f, rfl⟩ : ∃ f, fuel = f + 1 := ⟨fuel - 1, by have := jfuelMembers_pos kvs; omega⟩
  match kvs, hne with
  | (k, v) :: kvs2, _ =>
    have hfv : jfuel v ≤ f := by
      have h2 : jfuelMembers ((k, v) :: kvs2) = 1 + jfuel v + jfuelMembers kvs2 := by
        simp [jfuelMembers]
      omega
    cases kvs2 with
    | nil =>
      rw [show jsonRenderMembers [(k, v)] = '"' :: (escapeStr k ++ '"' :: ':' :: jsonRender v)
        from by simp [jsonRenderMembers]]
      rw [show ('"' :: (escapeStr k ++ '"' :: ':' :: jsonRender v)) ++ chRBrace :: rest =
          '"' :: (escapeStr k ++ '"' :: ':' :: (jsonRender v ++ chRBrace :: rest)) from by simp]
      show (do
        let (k2, r) ← strBodyFull (escapeStr k ++ '"' :: ':' ::
          (jsonRender v ++ chRBrace :: rest))
        match skipWs r with
        | c2 :: r2 =>
            if c2 = ':' then do
              let (v2, r3) ← jVal f r2
              match skipWs r3 with
              | c3 :: r4 =>
                  if c3 = ',' then (fun p => ((k2, v2) :: p.1, p.2)) <$> jMembers f r4
                  else if c3 = chRBrace then some ([(k2, v2)], r4)
                  else none
              | [] => none
            else none
        | [] => none) = some ([(k, v)], rest)
      rw [show escapeStr k ++ '"' :: ':' :: (jsonRender v ++ chRBrace :: rest) =
          escapeStr k ++ '"' :: (':' :: (jsonRender v ++ chRBrace :: rest)) from rfl]
      rw [strBodyFull_escape]
      show (do
        let (v2, r3) ← jVal f (jsonRender v ++ chRBrace :: rest)
        match skipWs r3 with
        | c3 :: r4 =>
            if c3 = ',' then (fun p => (((k, v2)) :: p.1, p.2)) <$> jMembers f r4
            else if c3 = chRBrace then some ([(k, v2)], r4)
            else none
        | [] => none) = some ([(k, v)], rest)
      rw [jVal_render v f (chRBrace :: rest) hfv rfl]
      rfl
    | cons m ms =>
      rw [show jsonRenderMembers ((k, v) :: m :: ms) =
          '"' :: (escapeStr k ++ '"' :: ':' :: jsonRender v) ++
            ',' :: jsonRenderMembers (m :: ms) from by simp [jsonRenderMembers]]
      rw [show ('"' :: (escapeStr k ++ '"' :: ':' :: jsonRender v) ++
            ',' :: jsonRenderMembers (m :: ms)) ++ chRBrace :: rest =
          '"' :: (escapeStr k ++ '"' :: (':' ::
            (jsonRender v ++ ',' :: (jsonRenderMembers (m :: ms) ++ chRBrace :: rest))))
        from by simp]
      show (do
        let (k2, r) ← strBodyFull (escapeStr k ++ '"' :: (':' ::
          (jsonRender v ++ ',' :: (jsonRenderMembers (m :: ms) ++ chRBrace :: rest))))
        match skipWs r with
        | c2 :: r2 =>
            if c2 = ':' then do
              let (v2, r3) ← jVal f r2
              match skipWs r3 with
              | c3 :: r4 =>
                  if c3 = ',' then (fun p => ((k2, v2) :: p.1, p.2)) <$> jMembers f r4
                  else if c3 = chRBrace then some ([(k2, v2)], r4)
                  else none
              | [] => none
            else none
        | [] => none) = some ((k, v) :: m :: ms, rest)
      rw [strBodyFull_escape]
      show (do
        let (v2, r3) ← jVal f (jsonRender v ++ ',' ::
          (jsonRenderMembers (m :: ms) ++ chRBrace :: rest))
        match skipWs r3 with
        | c3 :: r4 =>
            if c3 = ',' then (fun p => (((k, v2)) :: p.1, p.2)) <$> jMembers f r4
            else if c3 = chRBrace then some ([(k, v2)], r4)
            else none
        | [] => none) = some ((k, v) :: m :: ms, rest)
      rw [jVal_render v f (',' :: (jsonRenderMembers (m :: ms) ++ chRBrace :: rest)) hfv rfl]
      show (fun p => ((k, v) :: p.1, p.2)) <$>
        jMembers f (jsonRenderMembers (m :: ms) ++ chRBrace :: rest) =
        some ((k, v) :: m :: ms, rest)
      rw [jMembers_render (m :: ms) f rest (by simp) (by
        have h2 : jfuelMembers ((k, v) :: m :: ms) = 1 + jfuel v + jfuelMembers (m :: ms) := by
          simp [jfuelMembers]
        omega)]
      rfl

end

theorem jsonRender_length_pos (v : Json) : 1 ≤ (jsonRender v).length := by
  obtain ⟨c, cs, hc, _, _⟩ := jsonRender_head v
  rw [hc]
  simp

mutual

theorem jfuel_le_render (v : Json) : jfuel v ≤ 2 * (jsonRender v).length := by
  cases v with
  | null => simp [jfuel, jsonRender]
  | bool b => cases b <;> simp [jfuel, jsonRender]
  | num i =>
    have := jsonRender_length_pos (.num i)
    simp only [jfuel]
    omega
  | str s =>
    have := jsonRender_length_pos (.str s)
    simp only [jfuel]
    omega
  | arr xs =>
    have h1 := jfuelElems_le_render xs
    rw [show jsonRender (.arr xs) = chLBrack :: (jsonRenderElems xs ++ [chRBrack]) from by
      simp [jsonRender]]
    rw [show jfuel (.arr xs) = 1 + jfuelElems xs from by simp [jfuel]]
    simp only [List.length_cons, List.length_append, List.length_singleton]
    omega
  | obj kvs =>
    have h1 := jfuelMembers_le_render kvs
    rw [show jsonRender (.obj kvs) = chLBrace :: (jsonRenderMembers kvs ++ [chRBrace]) from by
      simp [jsonRender]]
    rw [show jfuel (.obj kvs) = 1 + jfuelMembers kvs from by simp [jfuel]]
    simp only [List.length_cons, List.length_append, List.length_singleton]
    omega

theorem jfuelElems_le_render (xs : List Json) :
    jfuelElems xs ≤ 2 * (jsonRenderElems xs).length + 3 := by
  cases xs with
  | nil => simp [jfuelElems]
  | cons x rest =>
    have h1 := jfuel_le_render x
    have h2 := jfuelElems_le_render rest
    rw [show jfuelElems (x :: rest) = 1 + jfuel x + jfuelElems rest from by simp [jfuelElems]]
    cases rest with
    | nil =>
      rw [show jsonRenderElems [x] = jsonRender x from by simp [jsonRenderElems]]
      rw [show jfuelElems ([] : List Json) = 1 from by simp [jfuelElems]]
      omega
    | cons y r =>
      rw [show jsonRenderElems (x :: y :: r) = jsonRender x ++ ',' :: jsonRenderElems (y :: r)
        from by simp [jsonRenderElems]]
      simp only [List.length_append, List.length_cons]
      omega

theorem jfuelMembers_le_render (kvs : List (List Char × Json)) :
    jfuelMembers kvs ≤ 2 * (jsonRenderMembers kvs).length + 3 := by
  cases kvs with
  | nil => simp [jfuelMembers]
  | cons kv rest =>
    obtain ⟨k, v⟩ := kv
    have h1 := jfuel_le_render v
    have h2 := jfuelMembers_le_render rest
    rw [show jfuelMembers ((k, v) :: rest) = 1 + jfuel v + jfuelMembers rest from by
      simp [jfuelMembers]]
    cases rest with
    | nil =>
      rw [show jsonRenderMembers [(k, v)] = '"' :: (escapeStr k ++ '"' :: ':' :: jsonRender v)
        from by simp [jsonRenderMembers]]
      rw [show jfuelMembers ([] : List (List Char × Json)) = 1 from by simp [jfuelMembers]]
      simp only [List.length_cons, List.length_append]
      omega
    | cons m r =>
      rw [show jsonRenderMembers ((k, v) :: m :: r) =
          '"' :: (escapeStr k ++ '"' :: ':' :: jsonRender v) ++
            ',' :: jsonRenderMembers (m :: r) from by simp [jsonRenderMembers]]
      simp only [List.length_cons, List.length_append]
      omega

end

/-- Round trip: parsing a rendered JSON value with `json.loads` recovers the
value exactly. -/
theorem jsonLoads_render (v : Json) : jsonLoads (jsonRender v) = some v := by
  unfold jsonLoads
  have h : jfuel v ≤ 2 * (jsonRender v).length + 2 :=
    le_trans (jfuel_le_render v) (by omega)
  have hmain := jVal_render v (2 * (jsonRender v).length + 2) [] h rfl
  rw [List.append_nil] at hmain
  rw [hmain]
  rfl

theorem jVal_backtick (fuel : Nat) (t : List Char) : jVal fuel (chBacktick :: t) = none := by
  cases fuel with
  | zero => rfl
  | succ f => rfl

/-- `json.loads` rejects any text that begins with a backtick (such as a whole
fenced block). -/
theorem jsonLoads_backtick (t : List Char) : jsonLoads (chBacktick :: t) = none := by
  unfold jsonLoads
  rw [jVal_backtick]

/-! ## Output Extractor

Embedding of `_parse_json_with_thought` / `_parse_json_with_trace` from
`backend/app/services/llm_service.py`.  Python strings are `List Char`; each
regex of the source is embedded as an explicit scan with the same
leftmost/greedy/lazy semantics; a raised `json.JSONDecodeError` is `none`, and
the function's own `raise ValueError` cases are the `ExtractErr` values.
-/

theorem findSub_cons_start {c : Char} {rest needle : List Char}
    (h : startsWith needle (c :: rest) = true) : findSub (c :: rest) needle = some 0 := by
  simp [findSub, h]

theorem findSub_append_shift (pre : List Char) (s : List Char) (n0 : Char) (nt : List Char)
    (hpre : ∀ c ∈ pre, c ≠ n0) :
    findSub (pre ++ s) (n0 :: nt) = (findSub s (n0 :: nt)).map (· + pre.length) := by
  induction pre with
  | nil =>
    simp only [List.nil_append, List.length_nil]
    cases findSub s (n0 :: nt) <;> simp
  | cons c pre2 ih =>
    have hcn : c ≠ n0 := hpre c (by simp)
    have hb : (n0 == c) = false := beq_eq_false_iff_ne.mpr (fun h => hcn h.symm)
    have hne : (startsWith (n0 :: nt) (c :: (pre2 ++ s))) = false := by
      simp [startsWith, hb]
    rw [show findSub (c :: pre2 ++ s) (n0 :: nt) =
        (if startsWith (n0 :: nt) (c :: (pre2 ++ s)) then some 0
          else (findSub (pre2 ++ s) (n0 :: nt)).map (· + 1)) from rfl]
    rw [if_neg (by simp [hne])]
    rw [ih (fun x hx => hpre x (by simp [hx]))]
    cases findSub s (n0 :: nt) with
    | none => simp
    | some j => simp; omega

theorem pyStripRight_append (A2 : List Char) (a : Char) (B : List Char)
    (ha : pyIsSpace a = false) :
    pyStripRight ((A2 ++ [a]) ++ B) = (A2 ++ [a]) ++ pyStripRight B := by
  unfold pyStripRight
  have h1 : ((A2 ++ [a]) ++ B).reverse = B.reverse ++ a :: A2.reverse := by
    simp
  rw [h1, List.dropWhile_append]
  by_cases he : (B.reverse.dropWhile pyIsSpace).isEmpty
  · rw [if_pos he]
    rw [List.dropWhile_cons, if_neg (by simp [ha])]
    rw [List.isEmpty_iff] at he
    rw [he]
    simp
  · rw [if_neg he]
    simp

theorem greedyCloseAux_spec (u : List Char) (e : Nat) :
    ∀ n, e < n → closeHit u e = true → (∀ k, e < k → closeHit u k = false) →
    greedyCloseAux n u = some e := by
  intro n
  induction n with
  | zero => omega
  | succ m ih =>
    intro hlt hhit habove
    by_cases hm : m = e
    · subst hm
      simp [greedyCloseAux, hhit]
    · have h1 : e < m := by omega
      have h2 : closeHit u m = false := habove m h1
      simp only [greedyCloseAux, h2, Bool.false_eq_true, if_false]
      exact ih h1 hhit habove

theorem head_drop_ne {t : List Char} {x : Char} (h : ∀ c ∈ t, c ≠ x) (m : Nat) :
    (((t.drop m).head? == some x) : Bool) = false := by
  cases hh : (t.drop m).head? with
  | none => rfl
  | some c =>
    have hc : c ∈ t.drop m := by
      cases hd : t.drop m with
      | nil => rw [hd] at hh; simp at hh
      | cons a r => rw [hd] at hh; simp at hh; simp [hd, hh]
    have := h c (List.mem_of_mem_drop hc)
    simp [this]

theorem closeHit_append_false {A tail : List Char} (htail : ∀ c ∈ tail, c ≠ chRBrace)
    (k : Nat) (hk : A.length ≤ k) : closeHit (A ++ tail) k = false := by
  unfold closeHit
  have hdrop : (A ++ tail).drop k = tail.drop (k - A.length) := by
    rw [List.drop_append_eq_append_drop]
    rw [List.drop_of_length_le (by omega)]
    simp
  rw [hdrop, head_drop_ne htail]
  simp

theorem fenceAfter_tail (post2 : List Char) :
    fenceAfter ('\n' :: chBacktick :: chBacktick :: chBacktick :: post2) = true := rfl

theorem fenceInner_fenced (kvs : List (List Char × Json)) (post2 : List Char)
    (hpost : ∀ c ∈ post2, c ≠ chRBrace) :
    fenceInner (("json\n".toList) ++ (jsonRender (.obj kvs) ++
      ('\n' :: chBacktick :: chBacktick :: chBacktick :: post2))) =
    some (jsonRender (.obj kvs)) := by
  have hbodyEq : jsonRender (.obj kvs) = (chLBrace :: jsonRenderMembers kvs) ++ [chRBrace] := by
    simp [jsonRender]
  have htail : ∀ c ∈ ('\n' :: chBacktick :: chBacktick :: chBacktick :: post2), c ≠ chRBrace := by
    intro c hc
    simp only [List.mem_cons] at hc
    rcases hc with rfl | rfl | rfl | rfl | hc
    · decide
    · decide
    · decide
    · decide
    · exact hpost c hc
  have hstep : ∀ X : List Char, fenceInner (("json\n".toList) ++ X) =
      (match (X.dropWhile pyIsSpace) with
        | c :: _ =>
            if c = chLBrace then
              (match greedyCloseAux (X.dropWhile pyIsSpace).length (X.dropWhile pyIsSpace) with
                | some e => some ((X.dropWhile pyIsSpace).take (e + 1))
                | none => none)
            else none
        | [] => none) := fun X => rfl
  rw [hstep]
  have hdw : (jsonRender (.obj kvs) ++
      ('\n' :: chBacktick :: chBacktick :: chBacktick :: post2)).dropWhile pyIsSpace =
      chLBrace :: ((jsonRenderMembers kvs ++ [chRBrace]) ++
        ('\n' :: chBacktick :: chBacktick :: chBacktick :: post2)) := by
    rw [hbodyEq]
    simp only [List.cons_append, List.append_assoc, List.dropWhile_cons]
    rw [if_neg (by decide)]
  rw [hdw]
  have hu : chLBrace :: ((jsonRenderMembers kvs ++ [chRBrace]) ++
        ('\n' :: chBacktick :: chBacktick :: chBacktick :: post2)) =
      ((chLBrace :: jsonRenderMembers kvs) ++ [chRBrace]) ++
        ('\n' :: chBacktick :: chBacktick :: chBacktick :: post2) := by
    simp
  have hclose : greedyCloseAux
      (chLBrace :: ((jsonRenderMembers kvs ++ [chRBrace]) ++
        ('\n' :: chBacktick :: chBacktick :: chBacktick :: post2))).length
      (chLBrace :: ((jsonRenderMembers kvs ++ [chRBrace]) ++
        ('\n' :: chBacktick :: chBacktick :: chBacktick :: post2))) =
      some (chLBrace :: jsonRenderMembers kvs).length := by
    rw [hu]
    apply greedyCloseAux_spec
    · simp only [List.length_append, List.length_cons, List.length_singleton]
      omega
    · unfold closeHit
      have h1 : (((chLBrace :: jsonRenderMembers kvs) ++ [chRBrace]) ++
          ('\n' :: chBacktick :: chBacktick :: chBacktick :: post2)).drop
            (chLBrace :: jsonRenderMembers kvs).length =
          chRBrace :: ('\n' :: chBacktick :: chBacktick :: chBacktick :: post2) := by
        rw [show ((chLBrace :: jsonRenderMembers kvs) ++ [chRBrace]) ++
            ('\n' :: chBacktick :: chBacktick :: chBacktick :: post2) =
            (chLBrace :: jsonRenderMembers kvs) ++
              (chRBrace :: ('\n' :: chBacktick :: chBacktick :: chBacktick :: post2)) from by
          simp]
        exact List.drop_left _ _
      have h2 : (((chLBrace :: jsonRenderMembers kvs) ++ [chRBrace]) ++
          ('\n' :: chBacktick :: chBacktick :: chBacktick :: post2)).drop
            ((chLBrace :: jsonRenderMembers kvs).length + 1) =
          '\n' :: chBacktick :: chBacktick :: chBacktick :: post2 := by
        rw [show (chLBrace :: jsonRenderMembers kvs).length + 1 =
            ((chLBrace :: jsonRenderMembers kvs) ++ [chRBrace]).length from by simp]
        exact List.drop_left _ _
      rw [h1, h2, fenceAfter_tail]
      rfl
    · intro k hk
      apply closeHit_append_false htail
      simp only [List.length_append, List.length_cons, List.length_nil] at hk ⊢
      omega
  rw [hclose]
  show some ((chLBrace :: ((jsonRenderMembers kvs ++ [chRBrace]) ++
      ('\n' :: chBacktick :: chBacktick :: chBacktick :: post2))).take
        ((chLBrace :: jsonRenderMembers kvs).length + 1)) =
    some (jsonRender (Json.obj kvs))
  rw [hu, List.take_left' (by simp), ← hbodyEq]

theorem fencedGreedy_start (u cap : List Char) (h : fenceInner u = some cap) :
    fencedGreedy (chBacktick :: chBacktick :: chBacktick :: u) = some cap := by
  show (match fenceInner u with
    | some c => some c
    | none => fencedGreedy (chBacktick :: chBacktick :: u)) = some cap
  rw [h]

theorem needle_json_split : ("```json".toList) = chBacktick :: ("``json".toList) := rfl

theorem fence_close_split : ("\n```".toList) = ("\n``".toList) ++ [chBacktick] := rfl

theorem cleanOf_fenced (kvs : List (List Char × Json)) (pre post : List Char)
    (hpre : ∀ c ∈ pre, c ≠ chBacktick) :
    cleanOf (pre ++ (renderFenced (.obj kvs) ++ post)) =
      renderFenced (.obj kvs) ++ pyStripRight post := by
  have hshape : renderFenced (.obj kvs) ++ post =
      chBacktick :: ((chBacktick :: chBacktick :: ("json\n".toList)) ++
        (jsonRender (.obj kvs) ++ (("\n```".toList) ++ post))) := by
    unfold renderFenced
    simp only [List.append_assoc, List.cons_append]
    rfl
  have hfind : findSub (pre ++ (renderFenced (.obj kvs) ++ post)) ("```json".toList) =
      some pre.length := by
    rw [needle_json_split, findSub_append_shift pre _ chBacktick _ hpre]
    rw [hshape]
    rw [findSub_cons_start (by rfl)]
    simp
  unfold cleanOf
  rw [hfind]
  show pyStrip (List.drop pre.length (pre ++ (renderFenced (.obj kvs) ++ post))) =
    renderFenced (.obj kvs) ++ pyStripRight post
  rw [List.drop_left]
  unfold pyStrip
  rw [hshape, List.dropWhile_cons, if_neg (by decide), ← hshape]
  rw [show renderFenced (.obj kvs) ++ post =
      ((("```json\n".toList) ++ (jsonRender (.obj kvs) ++ ("\n``".toList))) ++ [chBacktick]) ++
        post from by
    unfold renderFenced
    rw [fence_close_split]
    simp only [List.append_assoc, List.cons_append]]
  rw [pyStripRight_append _ _ _ (by decide)]
  rw [show renderFenced (.obj kvs) =
      (("```json\n".toList) ++ (jsonRender (.obj kvs) ++ ("\n``".toList))) ++ [chBacktick] from by
    unfold renderFenced
    rw [fence_close_split]
    simp only [List.append_assoc, List.cons_append]]

/-- Core extraction lemma: a rendered object in a fenced `json` block, with a
backtick-free free-text prefix and a suffix containing no closing brace after
trimming, is recovered exactly, with the trace split from its `trace` member. -/
theorem extract_fenced (kvs : List (List Char × Json)) (pre post : List Char)
    (hpre : ∀ c ∈ pre, c ≠ chBacktick)
    (hpost : ∀ c ∈ pyStripRight post, c ≠ chRBrace) :
    parse_json_with_trace (pre ++ (renderFenced (.obj kvs) ++ post)) =
      .ok (.obj kvs, traceSplit (.obj kvs)) := by
  have hrawne : (pre ++ (renderFenced (.obj kvs) ++ post)).isEmpty = false := by
    cases pre with
    | nil => simp [renderFenced]
    | cons c t => simp
  have hcleanshape : renderFenced (.obj kvs) ++ pyStripRight post =
      chBacktick :: chBacktick :: chBacktick :: (("json\n".toList) ++
        (jsonRender (.obj kvs) ++
          ('\n' :: chBacktick :: chBacktick :: chBacktick :: pyStripRight post))) := by
    unfold renderFenced
    simp only [List.append_assoc, List.cons_append]
    rfl
  have hdirect : strategyDirect (renderFenced (.obj kvs) ++ pyStripRight post) = none := by
    rw [hcleanshape]
    unfold strategyDirect
    rw [if_neg (by simp), jsonLoads_backtick]
  have hfenced : strategyFenced (renderFenced (.obj kvs) ++ pyStripRight post) =
      some (.obj kvs) := by
    rw [hcleanshape]
    unfold strategyFenced
    rw [fencedGreedy_start _ _ (fenceInner_fenced kvs (pyStripRight post) hpost)]
    show jsonLoads (jsonRender (.obj kvs)) = some (.obj kvs)
    exact jsonLoads_render _
  have hpayload : extractPayload (renderFenced (.obj kvs) ++ pyStripRight post) =
      some (.obj kvs) := by
    unfold extractPayload
    rw [hdirect, hfenced]
  have hthought : parse_json_with_thought (pre ++ (renderFenced (.obj kvs) ++ post)) =
      .ok (.obj kvs, thoughtOf (pre ++ (renderFenced (.obj kvs) ++ post))) := by
    unfold parse_json_with_thought
    rw [if_neg (by simp [hrawne]), cleanOf_fenced kvs pre post hpre, hpayload]
  unfold parse_json_with_trace
  rw [hthought]

theorem traceSplit_of_not_obj {kvs : List (List Char × Json)}
    (h : isObjOpt (lookupKey kvs ("trace".toList)) = false) :
    traceSplit (.obj kvs) = .obj [] := by
  unfold traceSplit
  show (match lookupKey kvs ("trace".toList) with
    | some (.obj t) => Json.obj t
    | _ => Json.obj []) = Json.obj []
  cases hl : lookupKey kvs ("trace".toList) with
  | none => rfl
  | some v =>
    cases v with
    | obj t => rw [hl] at h; simp [isObjOpt] at h
    | null => rfl
    | bool b => rfl
    | num i => rfl
    | str s => rfl
    | arr xs => rfl

theorem extractPayload_none_iff (c : List Char) : extractPayload c = none ↔
    strategyDirect c = none ∧ strategyFenced c = none ∧ strategyBraces c = none ∧
      strategyKeys c = none := by
  unfold extractPayload
  cases h1 : strategyDirect c <;> cases h2 : strategyFenced c <;>
    cases h3 : strategyBraces c <;> cases h4 : strategyKeys c <;> simp

/-- Claim C6 (amended): extracting a fenced rendering of an object `X` whose
`trace` member is absent or not an object returns exactly `(X, {})`, also when
an arbitrary backtick-free free-text block precedes the fence and a
brace-free tail follows it; in particular the garbage-prefix scenario of the
specification extracts `{"metrics": [1,2,3]}` with an empty trace. -/
theorem C6_extractor_round_trip :
    (∀ (kvs : List (List Char × Json)) (pre post : List Char),
      (∀ c ∈ pre, c ≠ chBacktick) → (∀ c ∈ pyStripRight post, c ≠ chRBrace) →
      isObjOpt (lookupKey kvs ("trace".toList)) = false →
      parse_json_with_trace (pre ++ (renderFenced (.obj kvs) ++ post)) =
        .ok (.obj kvs, .obj [])) ∧
    parse_json_with_trace
      ("garbage prefix ```json\n\x7b\"metrics\": [1,2,3]\x7d\n``` trailing".toList) =
      .ok (.obj [("metrics".toList, .arr [.num 1, .num 2, .num 3])], .obj []) := by
  constructor
  · intro kvs pre post hpre hpost htr
    rw [extract_fenced kvs pre post hpre hpost, traceSplit_of_not_obj htr]
  · rfl

/-- Witness for C6: a concrete free-text prefix and payload. -/
theorem C6_extractor_round_trip_witness :
    parse_json_with_trace (("note\n".toList) ++
      (renderFenced (.obj [("a".toList, .num 2)]) ++ [])) =
      .ok (.obj [("a".toList, .num 2)], .obj []) :=
  C6_extractor_round_trip.1 [("a".toList, .num 2)] ("note\n".toList) []
    (by decide) (by decide) (by decide)

/-- Counterexample for C6 as stated: for a payload that itself carries a
`trace` object, extraction does not return an empty trace, so
`extract(renderAsFencedJSON(X)) = (X, {})` fails for this `X`. -/
theorem C6_counterexample :
    parse_json_with_trace (renderFenced (.obj [("trace".toList, .obj [("a".toList, .num 1)])])) ≠
      .ok (.obj [("trace".toList, .obj [("a".toList, .num 1)])], .obj []) := by
  have h := extract_fenced [("trace".toList, .obj [("a".toList, .num 1)])] [] []
    (by simp) (by intro c hc; simp [pyStripRight] at hc)
  rw [List.nil_append, List.append_nil] at h
  rw [h]
  rw [show traceSplit (.obj [("trace".toList, .obj [("a".toList, .num 1)])]) =
      .obj [("a".toList, .num 1)] from rfl]
  intro hcontra
  simp at hcontra

/-- Claim C7: for every input, the extractor either returns a payload, or
(on the empty string) fails with the empty-input error, or fails with the
unparsable-output error carrying the 200-character preview — and the latter
only when every recovery strategy returned nothing; it never propagates a
parser failure.  The conjunct shows truncation recovery on a concrete
truncated object. -/
theorem C7_extractor_total :
    (∀ raw : List Char,
      (∃ v th, parse_json_with_thought raw = .ok (v, th)) ∨
      (raw = [] ∧ parse_json_with_thought raw = .error .emptyInput) ∨
      (parse_json_with_thought raw = .error (.unparsable (raw.take 200)) ∧
        strategyDirect (cleanOf raw) = none ∧ strategyFenced (cleanOf raw) = none ∧
        strategyBraces (cleanOf raw) = none ∧ strategyKeys (cleanOf raw) = none)) ∧
    parse_json_with_thought ("\x7b\"metrics\": [1,2,3], \"x\"".toList) =
      .ok (.obj [("metrics".toList, .arr [.num 1, .num 2, .num 3])], []) := by
  constructor
  · intro raw
    by_cases hemp : raw.isEmpty = true
    · right
      left
      refine ⟨List.isEmpty_iff.mp hemp, ?_⟩
      unfold parse_json_with_thought
      simp [hemp]
    · cases hp : extractPayload (cleanOf raw) with
      | some v =>
          left
          refine ⟨v, thoughtOf raw, ?_⟩
          unfold parse_json_with_thought
          simp only [hemp, Bool.false_eq_true, if_false, hp]
      | none =>
          right
          right
          have hall := (extractPayload_none_iff (cleanOf raw)).mp hp
          refine ⟨?_, hall.1, hall.2.1, hall.2.2.1, hall.2.2.2⟩
          unfold parse_json_with_thought
          simp only [hemp, Bool.false_eq_true, if_false, hp]
  · rfl

/-- Counterexample for C7 as stated: the empty input raises the dedicated
empty-input error before any recovery strategy is consulted, not the
unparsable-output error. -/
theorem C7_counterexample :
    parse_json_with_thought [] = .error .emptyInput ∧
      ExtractErr.emptyInput ≠ ExtractErr.unparsable (List.take 200 []) := by
  constructor
  · rfl
  · intro h
    cases h

/-! ## LLM provider failover chain

Embedding of `LLMProviderChain` (`backend/app/services/llm/provider_chain.py`).
A provider's behavior during one `generate` call is a response function
`resp : Nat → Nat → Except PyErr (List Char)` giving, for provider index `i`
and attempt number `a`, either the returned text or the raised exception.
`await asyncio.sleep` is recorded in the trace rather than performed.
-/

theorem countFor_append (i : Nat) (l1 l2 : List (Nat × Nat)) :
    countFor i (l1 ++ l2) = countFor i l1 + countFor i l2 := by
  simp [countFor, List.filter_append]

theorem countFor_seg (i idx attempt k : Nat) :
    countFor i ((List.range k).map (fun j => (idx, attempt + j))) =
      if idx = i then k else 0 := by
  by_cases h : idx = i
  · subst h
    have hall : List.filter (fun p => p.1 == idx)
        (List.map (fun j => (idx, attempt + j)) (List.range k)) =
        List.map (fun j => (idx, attempt + j)) (List.range k) := by
      rw [List.filter_eq_self]
      intro a ha
      simp only [List.mem_map] at ha
      obtain ⟨j, _, rfl⟩ := ha
      simp
    rw [if_pos rfl]
    rw [countFor, hall]
    simp
  · simp only [if_neg h]
    have hnil : ((List.range k).map (fun j => (idx, attempt + j))).filter
        (fun p => p.1 == i) = [] := by
      rw [List.filter_eq_nil_iff]
      intro a ha
      simp only [List.mem_map] at ha
      obtain ⟨j, _, rfl⟩ := ha
      simp [h]
    simp [countFor, hnil]

theorem providerLoop_attempts (resp : Nat → Nat → Except PyErr (List Char))
    (names : Nat → List Char) (idx : Nat) :
    ∀ fuel attempt tr,
      ∃ k, k ≤ fuel ∧ (1 ≤ fuel → 1 ≤ k) ∧
        (providerLoop resp names idx fuel attempt tr).2.attempts =
          tr.attempts ++ (List.range k).map (fun j => (idx, attempt + j)) := by
  intro fuel
  induction fuel with
  | zero => intro attempt tr; exact ⟨0, by omega, by omega, by simp [providerLoop]⟩
  | succ f ih =>
    intro attempt tr
    cases hr : resp idx attempt with
    | ok text =>
      refine ⟨1, by omega, by omega, ?_⟩
      simp only [providerLoop, hr]
      rw [show List.range 1 = [0] from rfl]
      simp
    | error e =>
      by_cases hre : is_retriable e.msg = true ∧ attempt < MAX_RETRIES_PER_PROVIDER - 1
      · obtain ⟨k, hk, _, hatt⟩ := ih (attempt + 1)
          { tr with
            attempts := tr.attempts ++ [(idx, attempt)],
            errors := tr.errors ++ [names idx ++ (": ".toList) ++ errEntryMsg e],
            sleeps := tr.sleeps ++ [min (RATE_LIMIT_RETRY_DELAY * 2 ^ attempt) 60] }
        refine ⟨k + 1, by omega, by omega, ?_⟩
        simp only [providerLoop, hr, if_pos hre]
        rw [hatt, List.append_assoc]
        congr 1
        rw [List.range_succ_eq_map, List.map_cons, List.map_map, List.singleton_append]
        congr 1
        apply List.map_congr_left
        intro j hj
        simp only [Function.comp_apply]
        have hj2 : attempt + 1 + j = attempt + (j + 1) := by omega
        rw [hj2]
      · refine ⟨1, by omega, by omega, ?_⟩
        simp only [providerLoop, hr, if_neg hre]
        rw [show List.range 1 = [0] from rfl]
        simp

theorem providerLoop_ok (resp : Nat → Nat → Except PyErr (List Char))
    (names : Nat → List Char) (idx : Nat) :
    ∀ fuel attempt tr t tr2,
      providerLoop resp names idx fuel attempt tr = (some t, tr2) →
      ∃ a, resp idx a = .ok t ∧ tr2.attempts.getLast? = some (idx, a) := by
  intro fuel
  induction fuel with
  | zero => intro attempt tr t tr2 h; simp [providerLoop] at h
  | succ f ih =>
    intro attempt tr t tr2 h
    cases hr : resp idx attempt with
    | ok text =>
      simp only [providerLoop, hr, Prod.mk.injEq, Option.some.injEq] at h
      obtain ⟨rfl, rfl⟩ := h
      exact ⟨attempt, hr, by simp⟩
    | error e =>
      by_cases hre : is_retriable e.msg = true ∧ attempt < MAX_RETRIES_PER_PROVIDER - 1
      · simp only [providerLoop, hr, if_pos hre] at h
        exact ih _ _ _ _ h
      · simp only [providerLoop, hr, if_neg hre] at h
        simp at h

theorem providerLoop_sleeps (resp : Nat → Nat → Except PyErr (List Char))
    (names : Nat → List Char) (idx : Nat) :
    ∀ fuel attempt tr,
      ∀ s ∈ (providerLoop resp names idx fuel attempt tr).2.sleeps,
        s ∈ tr.sleeps ∨ ∃ a, a < MAX_RETRIES_PER_PROVIDER - 1 ∧
          s = min (RATE_LIMIT_RETRY_DELAY * 2 ^ a) 60 := by
  intro fuel
  induction fuel with
  | zero => intro attempt tr s hs; simp [providerLoop] at hs; exact Or.inl hs
  | succ f ih =>
    intro attempt tr s hs
    cases hr : resp idx attempt with
    | ok text =>
      simp only [providerLoop, hr] at hs
      exact Or.inl hs
    | error e =>
      by_cases hre : is_retriable e.msg = true ∧ attempt < MAX_RETRIES_PER_PROVIDER - 1
      · simp only [providerLoop, hr, if_pos hre] at hs
        rcases ih _ _ s hs with hmem | hform
        · simp only [List.mem_append, List.mem_singleton] at hmem
          rcases hmem with hmem | rfl
          · exact Or.inl hmem
          · exact Or.inr ⟨attempt, hre.2, rfl⟩
        · exact Or.inr hform
      · simp only [providerLoop, hr, if_neg hre] at hs
        exact Or.inl hs

/-- A terminal (non-retriable) first error stops the provider loop after
exactly one attempt. -/
theorem providerLoop_terminal (resp : Nat → Nat → Except PyErr (List Char))
    (names : Nat → List Char) (idx fuel attempt : Nat) (tr : ChainTrace) (e : PyErr)
    (hr : resp idx attempt = .error e) (hnre : is_retriable e.msg = false) :
    (providerLoop resp names idx (fuel + 1) attempt tr).1 = none ∧
      (providerLoop resp names idx (fuel + 1) attempt tr).2.attempts =
        tr.attempts ++ [(idx, attempt)] := by
  simp only [providerLoop, hr]
  rw [if_neg (by simp [hnre])]
  exact ⟨rfl, rfl⟩

theorem modShift_ne {n o o' pref : Nat} (ho : o < n) (ho' : o' < n) (hne : o ≠ o') :
    (pref + o) % n ≠ (pref + o') % n := by
  intro h
  have hm : Nat.ModEq n (pref + o) (pref + o') := h
  have h1 : Nat.ModEq n o o' := Nat.ModEq.add_left_cancel' pref hm
  have h2 : o % n = o' % n := h1
  rw [Nat.mod_eq_of_lt ho, Nat.mod_eq_of_lt ho'] at h2
  exact hne h2

theorem offsetLoop_mono (resp : Nat → Nat → Except PyErr (List Char))
    (names : Nat → List Char) (pref n : Nat) :
    ∀ fuel o0 tr, ∃ l, (offsetLoop resp names pref n fuel o0 tr).2.attempts =
      tr.attempts ++ l := by
  intro fuel
  induction fuel with
  | zero => intro o0 tr; exact ⟨[], by simp [offsetLoop]⟩
  | succ f ih =>
    intro o0 tr
    obtain ⟨k, hk, hk1, hatt⟩ :=
      providerLoop_attempts resp names ((pref + o0) % n) MAX_RETRIES_PER_PROVIDER 0 tr
    rcases hp : providerLoop resp names ((pref + o0) % n) MAX_RETRIES_PER_PROVIDER 0 tr
      with ⟨ro, tr2⟩
    rw [hp] at hatt
    cases ro with
    | some t =>
      refine ⟨(List.range k).map (fun j => ((pref + o0) % n, 0 + j)), ?_⟩
      simp only [offsetLoop, hp]
      exact hatt
    | none =>
      obtain ⟨l2, hl2⟩ := ih (o0 + 1) tr2
      refine ⟨(List.range k).map (fun j => ((pref + o0) % n, 0 + j)) ++ l2, ?_⟩
      simp only [offsetLoop, hp]
      rw [hl2, hatt, List.append_assoc]

/-- The first attempt recorded by the offset loop is `((pref + o0) % n, 0)`. -/
theorem offsetLoop_first (resp : Nat → Nat → Except PyErr (List Char))
    (names : Nat → List Char) (pref n : Nat) :
    ∀ fuel o0 tr, 1 ≤ fuel →
      ∃ rest, (offsetLoop resp names pref n fuel o0 tr).2.attempts =
        tr.attempts ++ ((pref + o0) % n, 0) :: rest := by
  intro fuel
  cases fuel with
  | zero => intro o0 tr h; omega
  | succ f =>
    intro o0 tr _
    obtain ⟨k, hk, hk1, hatt⟩ :=
      providerLoop_attempts resp names ((pref + o0) % n) MAX_RETRIES_PER_PROVIDER 0 tr
    have hk1' : 1 ≤ k := hk1 (by decide)
    rcases hp : providerLoop resp names ((pref + o0) % n) MAX_RETRIES_PER_PROVIDER 0 tr
      with ⟨ro, tr2⟩
    rw [hp] at hatt
    obtain ⟨k', rfl⟩ : ∃ k', k = k' + 1 := ⟨k - 1, by omega⟩
    rw [List.range_succ_eq_map, List.map_cons] at hatt
    cases ro with
    | some t =>
      refine ⟨(List.range k').map ((fun j => ((pref + o0) % n, 0 + j)) ∘ Nat.succ), ?_⟩
      simp only [offsetLoop, hp]
      rw [hatt, List.map_map]
    | none =>
      obtain ⟨l2, hl2⟩ := offsetLoop_mono resp names pref n f (o0 + 1) tr2
      refine ⟨(List.range k').map ((fun j => ((pref + o0) % n, 0 + j)) ∘ Nat.succ) ++ l2, ?_⟩
      simp only [offsetLoop, hp]
      rw [hl2, hatt, List.map_map, List.append_assoc]
      simp

/-- A successful offset loop returns text produced by a valid provider index,
and that provider's successful attempt is the last one recorded. -/
theorem offsetLoop_ok (resp : Nat → Nat → Except PyErr (List Char))
    (names : Nat → List Char) (pref n : Nat) (hn : 0 < n) :
    ∀ fuel o0 tr t idx tr2,
      offsetLoop resp names pref n fuel o0 tr = (some (t, idx), tr2) →
      idx < n ∧ ∃ a, resp idx a = .ok t ∧ tr2.attempts.getLast? = some (idx, a) := by
  intro fuel
  induction fuel with
  | zero => intro o0 tr t idx tr2 h; simp [offsetLoop] at h
  | succ f ih =>
    intro o0 tr t idx tr2 h
    rcases hp : providerLoop resp names ((pref + o0) % n) MAX_RETRIES_PER_PROVIDER 0 tr
      with ⟨ro, trx⟩
    cases ro with
    | some t0 =>
      simp only [offsetLoop, hp, Prod.mk.injEq, Option.some.injEq] at h
      obtain ⟨⟨rfl, rfl⟩, rfl⟩ := h
      refine ⟨Nat.mod_lt _ hn, ?_⟩
      exact providerLoop_ok resp names _ _ _ _ _ _ hp
    | none =>
      simp only [offsetLoop, hp] at h
      exact ih _ _ _ _ _ h

/-- Per-provider attempt count bound of the offset loop: any one provider index
collects at most `MAX_RETRIES_PER_PROVIDER` attempts, and a provider outside
the visited offset window collects none. -/
theorem offsetLoop_count (resp : Nat → Nat → Except PyErr (List Char))
    (names : Nat → List Char) (pref n : Nat) :
    ∀ fuel o0 tr i, o0 + fuel ≤ n →
      countFor i (offsetLoop resp names pref n fuel o0 tr).2.attempts ≤
        countFor i tr.attempts + MAX_RETRIES_PER_PROVIDER ∧
      ((∀ o, o0 ≤ o → o < o0 + fuel → (pref + o) % n ≠ i) →
        countFor i (offsetLoop resp names pref n fuel o0 tr).2.attempts =
          countFor i tr.attempts) := by
  intro fuel
  induction fuel with
  | zero =>
    intro o0 tr i _
    exact ⟨by simp [offsetLoop], fun _ => by simp [offsetLoop]⟩
  | succ f ih =>
    intro o0 tr i hle
    obtain ⟨k, hk, hk1, hatt⟩ :=
      providerLoop_attempts resp names ((pref + o0) % n) MAX_RETRIES_PER_PROVIDER 0 tr
    rcases hp : providerLoop resp names ((pref + o0) % n) MAX_RETRIES_PER_PROVIDER 0 tr
      with ⟨ro, tr2⟩
    rw [hp] at hatt
    have hcnt : countFor i tr2.attempts =
        countFor i tr.attempts + (if (pref + o0) % n = i then k else 0) := by
      rw [hatt, countFor_append, countFor_seg]
    cases ro with
    | some t =>
      simp only [offsetLoop, hp]
      constructor
      · rw [hcnt]
        by_cases hik : (pref + o0) % n = i
        · rw [if_pos hik]; omega
        · rw [if_neg hik]; omega
      · intro hno
        have hik : (pref + o0) % n ≠ i := hno o0 (le_refl _) (by omega)
        rw [hcnt, if_neg hik]
        omega
    | none =>
      simp only [offsetLoop, hp]
      have ihh := ih (o0 + 1) tr2 i (by omega)
      constructor
      · by_cases hik : (pref + o0) % n = i
        · have hnone : ∀ o, o0 + 1 ≤ o → o < o0 + 1 + f → (pref + o) % n ≠ i := by
            intro o h1 h2
            rw [← hik]
            exact modShift_ne (by omega) (by omega) (by omega)
          rw [ihh.2 hnone, hcnt, if_pos hik]
          omega
        · have h1 := ihh.1
          rw [hcnt, if_neg hik] at h1
          omega
      · intro hno
        have hik : (pref + o0) % n ≠ i := hno o0 (le_refl _) (by omega)
        have hnone : ∀ o, o0 + 1 ≤ o → o < o0 + 1 + f → (pref + o) % n ≠ i :=
          fun o h1 h2 => hno o (by omega) (by omega)
        rw [ihh.2 hnone, hcnt, if_neg hik]
        omega

theorem offsetLoop_sleeps (resp : Nat → Nat → Except PyErr (List Char))
    (names : Nat → List Char) (pref n : Nat) :
    ∀ fuel o0 tr s, s ∈ (offsetLoop resp names pref n fuel o0 tr).2.sleeps →
      s ∈ tr.sleeps ∨ ∃ a, a < MAX_RETRIES_PER_PROVIDER - 1 ∧
        s = min (RATE_LIMIT_RETRY_DELAY * 2 ^ a) 60 := by
  intro fuel
  induction fuel with
  | zero => intro o0 tr s hs; simp [offsetLoop] at hs; exact Or.inl hs
  | succ f ih =>
    intro o0 tr s hs
    rcases hp : providerLoop resp names ((pref + o0) % n) MAX_RETRIES_PER_PROVIDER 0 tr
      with ⟨ro, tr2⟩
    cases ro with
    | some t =>
      simp only [offsetLoop, hp] at hs
      have := providerLoop_sleeps resp names ((pref + o0) % n) MAX_RETRIES_PER_PROVIDER 0 tr s
      rw [hp] at this
      exact this hs
    | none =>
      simp only [offsetLoop, hp] at hs
      rcases ih _ _ _ hs with hmem | hform
      · have := providerLoop_sleeps resp names ((pref + o0) % n) MAX_RETRIES_PER_PROVIDER 0 tr s
        rw [hp] at this
        exact this hmem
      · exact Or.inr hform

/-- The trace of a `generate` call is the trace produced by its offset loop. -/
theorem generate_trace (ch : LLMProviderChain) (resp : Nat → Nat → Except PyErr (List Char)) :
    (generate ch resp).trace =
      (offsetLoop resp (fun i => ch.available.getD i []) ch.preferredIndex
        ch.available.length ch.available.length 0 ⟨[], [], []⟩).2 := by
  rcases h : offsetLoop resp (fun i => ch.available.getD i []) ch.preferredIndex
      ch.available.length ch.available.length 0 ⟨[], [], []⟩ with ⟨ro, tr⟩
  show (match offsetLoop resp (fun i => ch.available.getD i []) ch.preferredIndex
      ch.available.length ch.available.length 0 ⟨[], [], []⟩ with
    | (some (t, idx), tr) => (⟨.ok t, idx, tr⟩ : GenOutcome)
    | (none, tr) => ⟨.error (chainExhaustMsg (fun i => ch.available.getD i [])
        ch.available.length tr.errors), ch.preferredIndex, tr⟩).trace = tr
  rw [h]
  cases ro with
  | some p => rcases p with ⟨t, idx⟩; rfl
  | none => rfl

/-- Unfolding equation for `generate`. -/
theorem generate_def (ch : LLMProviderChain) (resp : Nat → Nat → Except PyErr (List Char)) :
    generate ch resp =
      match offsetLoop resp (fun i => ch.available.getD i []) ch.preferredIndex
          ch.available.length ch.available.length 0 ⟨[], [], []⟩ with
      | (some (t, idx), tr) => ⟨.ok t, idx, tr⟩
      | (none, tr) => ⟨.error (chainExhaustMsg (fun i => ch.available.getD i [])
          ch.available.length tr.errors), ch.preferredIndex, tr⟩ := rfl

/-- Claim C1: for every chain constructed by `__init__` with at least one
available provider and any provider behaviour, `generate` either returns text
that some in-range provider produced, or raises the chain-exhaustion
`RuntimeError` carrying the joined per-provider error summaries; no other
outcome (in particular no escaping raw provider exception) is possible. -/
theorem C1_generate_total (providers : List (Bool × List Char)) (ch : LLMProviderChain)
    (resp : Nat → Nat → Except PyErr (List Char)) (h : chainInit providers = .ok ch) :
    (∃ t i a, (generate ch resp).result = .ok t ∧ i < ch.available.length ∧
      resp i a = .ok t) ∨
    (∃ errs, (generate ch resp).result =
      .error (chainExhaustMsg (fun i => ch.available.getD i []) ch.available.length errs)) := by
  have hn : 0 < ch.available.length := by
    unfold chainInit at h
    by_cases he : ((providers.filter (fun p => p.1)).map (fun p => p.2)).isEmpty
    · rw [if_pos he] at h; exact absurd h (by simp)
    · rw [if_neg he] at h
      cases h
      simp only [List.isEmpty_iff] at he
      exact List.length_pos.mpr he
  rcases hoff : offsetLoop resp (fun i => ch.available.getD i []) ch.preferredIndex
      ch.available.length ch.available.length 0 ⟨[], [], []⟩ with ⟨ro, tr⟩
  cases ro with
  | some p =>
    rcases p with ⟨t, idx⟩
    obtain ⟨hidx, a, ha, _⟩ := offsetLoop_ok resp _ _ _ hn _ _ _ _ _ _ hoff
    refine Or.inl ⟨t, idx, a, ?_, hidx, ha⟩
    rw [generate_def, hoff]
  | none =>
    refine Or.inr ⟨tr.errors, ?_⟩
    rw [generate_def, hoff]

/-- Witness for C1 at a concrete one-provider chain with a succeeding provider. -/
theorem C1_generate_total_witness :
    (∃ t i a, (generate wChain wResp).result = .ok t ∧ i < wChain.available.length ∧
      wResp i a = .ok t) ∨
    (∃ errs, (generate wChain wResp).result =
      .error (chainExhaustMsg (fun i => wChain.available.getD i [])
        wChain.available.length errs)) :=
  C1_generate_total [(true, ("g".toList))] wChain wResp rfl

/-- Claim C4: each provider is attempted at most `MAX_RETRIES_PER_PROVIDER = 3`
times per `generate` call; an error is retriable exactly when its message
matches one of the rate-limit/quota/empty-response markers; every sleep is of
the form `min(5 * 2 ^ attempt, 60)` with `attempt < 2`; a terminal error stops
a provider's loop after exactly one attempt; and in the concrete scenario
(provider 0 always rate-limited, provider 1 a terminal auth error, provider 2
succeeding with "ok") the call returns "ok", the preferred index becomes 2,
provider 1 is attempted exactly once, and the recorded attempts and sleeps are
exactly `[(0,0),(0,1),(0,2),(1,0),(2,0)]` and `[5,10]`. -/
theorem C4_retry_policy :
    (∀ e : PyErr, is_retriable e.msg = true ↔
      ∃ kw ∈ retryMarkers, (findSub (toLowerL e.msg) kw).isSome = true) ∧
    (∀ ch resp i, countFor i (generate ch resp).trace.attempts ≤ MAX_RETRIES_PER_PROVIDER) ∧
    (∀ ch resp s, s ∈ (generate ch resp).trace.sleeps →
      ∃ a, a < MAX_RETRIES_PER_PROVIDER - 1 ∧ s = min (RATE_LIMIT_RETRY_DELAY * 2 ^ a) 60) ∧
    (∀ resp names idx fuel attempt tr e, resp idx attempt = .error e →
      is_retriable e.msg = false →
      (providerLoop resp names idx (fuel + 1) attempt tr).1 = none ∧
      (providerLoop resp names idx (fuel + 1) attempt tr).2.attempts =
        tr.attempts ++ [(idx, attempt)]) ∧
    ((generate scenarioChain scenarioResp).result = .ok ("ok".toList) ∧
     (generate scenarioChain scenarioResp).preferredIndex = 2 ∧
     countFor 1 (generate scenarioChain scenarioResp).trace.attempts = 1 ∧
     (generate scenarioChain scenarioResp).trace.attempts =
       [(0, 0), (0, 1), (0, 2), (1, 0), (2, 0)] ∧
     (generate scenarioChain scenarioResp).trace.sleeps = [5, 10]) := by
  refine ⟨?_, ?_, ?_, ?_, ?_⟩
  · intro e
    simp [is_retriable, List.any_eq_true]
  · intro ch resp i
    rw [generate_trace]
    have h := (offsetLoop_count resp (fun j => ch.available.getD j []) ch.preferredIndex
      ch.available.length ch.available.length 0 ⟨[], [], []⟩ i (by omega)).1
    exact le_trans h (by simp [countFor])
  · intro ch resp s hs
    rw [generate_trace] at hs
    rcases offsetLoop_sleeps resp (fun j => ch.available.getD j []) ch.preferredIndex
        ch.available.length ch.available.length 0 ⟨[], [], []⟩ s hs with hmem | hform
    · exact absurd hmem (List.not_mem_nil s)
    · exact hform
  · intro resp names idx fuel attempt tr e hr hnre
    exact providerLoop_terminal resp names idx fuel attempt tr e hr hnre
  · exact ⟨rfl, rfl, rfl, rfl, rfl⟩

/-- Witness for C4: the terminal-error clause applied to the scenario's
provider 1 (auth error, not retriable): it is attempted exactly once. -/
theorem C4_retry_policy_witness :
    (providerLoop scenarioResp (fun i => scenarioChain.available.getD i []) 1 3 0
      ⟨[], [], []⟩).1 = none ∧
    (providerLoop scenarioResp (fun i => scenarioChain.available.getD i []) 1 3 0
      ⟨[], [], []⟩).2.attempts = ([] : List (Nat × Nat)) ++ [(1, 0)] :=
  C4_retry_policy.2.2.2.1 scenarioResp (fun i => scenarioChain.available.getD i []) 1 2 0
    ⟨[], [], []⟩ ⟨("AuthError".toList), ("invalid api key".toList)⟩ rfl (by decide)

/-- Claim C8 (sticky routing): `_preferred_index` stays a valid index of the
available-provider list; on success it becomes exactly the index of the
provider that produced the text (whose successful attempt is the last one
recorded), on failure it is unchanged; and the next `generate` call of a chain
carrying the updated index attempts that provider first. -/
theorem C8_sticky (ch : LLMProviderChain) (resp : Nat → Nat → Except PyErr (List Char))
    (hne : ch.available ≠ []) :
    (ch.preferredIndex < ch.available.length →
      (generate ch resp).preferredIndex < ch.available.length) ∧
    (∀ t, (generate ch resp).result = .ok t →
      ∃ a, resp (generate ch resp).preferredIndex a = .ok t ∧
        (generate ch resp).trace.attempts.getLast? =
          some ((generate ch resp).preferredIndex, a)) ∧
    (∀ msg, (generate ch resp).result = .error msg →
      (generate ch resp).preferredIndex = ch.preferredIndex) ∧
    (∀ t, (generate ch resp).result = .ok t → ∀ resp2,
      (generate ⟨ch.available, (generate ch resp).preferredIndex⟩ resp2).trace.attempts.head? =
        some ((generate ch resp).preferredIndex, 0)) := by
  have hn : 0 < ch.available.length := List.length_pos.mpr hne
  rcases hoff : offsetLoop resp (fun i => ch.available.getD i []) ch.preferredIndex
      ch.available.length ch.available.length 0 ⟨[], [], []⟩ with ⟨ro, tr⟩
  cases ro with
  | some p =>
    rcases p with ⟨t0, idx⟩
    have hgen : generate ch resp = ⟨.ok t0, idx, tr⟩ := by rw [generate_def, hoff]
    obtain ⟨hidx, a, ha, hlast⟩ := offsetLoop_ok resp _ _ _ hn _ _ _ _ _ _ hoff
    refine ⟨?_, ?_, ?_, ?_⟩
    · intro _; rw [hgen]; exact hidx
    · intro t ht
      rw [hgen] at ht ⊢
      simp only [Except.ok.injEq] at ht
      subst ht
      exact ⟨a, ha, hlast⟩
    · intro msg hmsg
      rw [hgen] at hmsg
      simp at hmsg
    · intro t ht resp2
      rw [hgen, generate_trace]
      show (offsetLoop resp2 (fun i => ch.available.getD i []) idx
        ch.available.length ch.available.length 0 ⟨[], [], []⟩).2.attempts.head? =
          some (idx, 0)
      obtain ⟨rest, hrest⟩ := offsetLoop_first resp2 (fun i => ch.available.getD i [])
        idx ch.available.length ch.available.length 0 ⟨[], [], []⟩ (by omega)
      rw [hrest]
      simp [Nat.mod_eq_of_lt hidx]
  | none =>
    have hgen : generate ch resp =
        ⟨.error (chainExhaustMsg (fun i => ch.available.getD i [])
          ch.available.length tr.errors), ch.preferredIndex, tr⟩ := by
      rw [generate_def, hoff]
    refine ⟨?_, ?_, ?_, ?_⟩
    · intro hlt; rw [hgen]; exact hlt
    · intro t ht; rw [hgen] at ht; simp at ht
    · intro msg _; rw [hgen]
    · intro t ht resp2; rw [hgen] at ht; simp at ht

/-- Witness for C8 at the concrete scenario: after the success through
provider 2, a next call with the updated sticky index attempts provider 2
first. -/
theorem C8_sticky_witness :
    (generate ⟨scenarioChain.available,
        (generate scenarioChain scenarioResp).preferredIndex⟩ scenarioResp).trace.attempts.head? =
      some ((generate scenarioChain scenarioResp).preferredIndex, 0) :=
  (C8_sticky scenarioChain scenarioResp (by decide)).2.2.2 ("ok".toList) rfl scenarioResp

theorem createBatchesGo_flatten (budget : Nat) :
    ∀ rest cur cc, (createBatchesGo budget rest cur cc).flatten = cur ++ rest := by
  intro rest
  induction rest with
  | nil =>
    intro cur cc
    by_cases h : cur.isEmpty
    · simp only [createBatchesGo, if_pos h, List.flatten_nil]
      rw [List.isEmpty_iff] at h
      simp [h]
    · rw [List.isEmpty_iff] at h
      simp [createBatchesGo, h]
  | cons f rest ih =>
    intro cur cc
    by_cases h : cc + fileChars f > budget ∧ ¬ cur.isEmpty
    · simp only [createBatchesGo, if_pos h, List.flatten_cons]
      rw [ih]
      simp
    · simp only [createBatchesGo, if_neg h]
      rw [ih]
      simp

/-- Claim C3: concatenating the batches produced by `create_batches` in order
reproduces the input file list exactly — no file is lost, duplicated or
reordered. -/
theorem C3_batches_concat (files : List FileD) :
    (create_batches files).flatten = files := by
  rw [create_batches, createBatchesGo_flatten]
  rfl

/-- Claim C5: the source planner accepts no token-budget input — it batches
against the fixed `MAX_CHARS_PER_BATCH` only — so it differs from the
spec-described planner at any small caller-supplied budget: at
`maxTokensPerBatch = 10` the spec planner splits the two small files into two
batches while the source keeps them in one. (At the call site
`analysis_service.py:219` the caller does pass `max_tokens=...`, which the
source function's signature rejects.) -/
theorem C5_planner_budget_ignored :
    create_batches_spec 10 cFiles ≠ create_batches cFiles ∧
    create_batches cFiles = [cFiles] := by
  exact ⟨by decide, rfl⟩

theorem pathOnly_calls (po : List (List Char) → Except PyErr (List Json × DTrace))
    (bno : Nat) (files : List FileD) (e : PyErr) :
    (pathOnly po bno files e).contentCalls = 0 ∧ (pathOnly po bno files e).pathCalls = 1 := by
  rcases h : po (pathOnlyPaths files) with ⟨ms, tr⟩ | e2 <;> simp [pathOnly, h]

/-- The recursion tree of `discover_batch` at fuel `fuel` makes at most
`2 ^ (fuel + 1) - 1` content calls and `2 ^ fuel` path-only calls. -/
theorem discoverBatch_calls (co : List FileD → Except PyErr (List Json × DTrace))
    (po : List (List Char) → Except PyErr (List Json × DTrace)) (bno : Nat) :
    ∀ fuel files,
      (discoverBatch co po bno fuel files).contentCalls ≤ 2 ^ (fuel + 1) - 1 ∧
      (discoverBatch co po bno fuel files).pathCalls ≤ 2 ^ fuel := by
  intro fuel
  induction fuel with
  | zero =>
    intro files
    rcases hco : co files with e | ⟨ms, tr⟩
    · have hp := pathOnly_calls po bno files e
      simp [discoverBatch, hco, hp.1, hp.2]
    · simp [discoverBatch, hco]
  | succ f ih =>
    intro files
    rcases hco : co files with e | ⟨ms, tr⟩
    · by_cases hlen : 2 ≤ files.length
      · have hl := ih (files.take (max 1 (files.length / 2)))
        have hr := ih (files.drop (max 1 (files.length / 2)))
        simp only [discoverBatch, hco, if_pos hlen]
        constructor
        · have h2 : (2 : Nat) ^ (f + 1 + 1) = 2 ^ (f + 1) + 2 ^ (f + 1) := by
            rw [pow_succ]; omega
          have h1 : (1 : Nat) ≤ 2 ^ (f + 1) := Nat.one_le_two_pow
          omega
        · have h2 : (2 : Nat) ^ (f + 1) = 2 ^ f + 2 ^ f := by
            rw [pow_succ]; omega
          omega
      · have hp := pathOnly_calls po bno files e
        simp only [discoverBatch, hco, if_neg hlen]
        constructor
        · rw [hp.1]
          have : (1 : Nat) ≤ 2 ^ (f + 1 + 1) := Nat.one_le_two_pow
          omega
        · rw [hp.2]
          exact Nat.one_le_two_pow
    · constructor
      · simp only [discoverBatch, hco]
        have : (1 : Nat) ≤ 2 ^ (f + 1 + 1) := Nat.one_le_two_pow
        omega
      · simp [discoverBatch, hco]

/-- When every content call and every path-only call fails, `discover_batch`
returns the empty result with the three-empty-lists trace and its log contains
a `kind="Error"` entry. -/
theorem discoverBatch_allfail (co : List FileD → Except PyErr (List Json × DTrace))
    (po : List (List Char) → Except PyErr (List Json × DTrace)) (bno : Nat)
    (hco : ∀ fs, ∃ e, co fs = .error e) (hpo : ∀ ps, ∃ e, po ps = .error e) :
    ∀ fuel files,
      (discoverBatch co po bno fuel files).metrics = [] ∧
      (discoverBatch co po bno fuel files).trace = ⟨[], [], []⟩ ∧
      ∃ l ∈ (discoverBatch co po bno fuel files).logs, l.kind = ("Error".toList) := by
  have hpath : ∀ files e,
      (pathOnly po bno files e).metrics = [] ∧
      (pathOnly po bno files e).trace = ⟨[], [], []⟩ ∧
      ∃ l ∈ (pathOnly po bno files e).logs, l.kind = ("Error".toList) := by
    intro files e
    obtain ⟨e2, he2⟩ := hpo (pathOnlyPaths files)
    refine ⟨?_, ?_, ?_⟩
    · simp [pathOnly, he2]
    · simp [pathOnly, he2]
    · refine ⟨⟨("Error".toList),
        ("Batch ".toList) ++ natRender bno ++
          (": failed after retries (including path-only). Continuing with 0 metrics. Error: ".toList)
          ++ e2.msg.take 300⟩, ?_, rfl⟩
      simp [pathOnly, he2]
  intro fuel
  induction fuel with
  | zero =>
    intro files
    obtain ⟨e, he⟩ := hco files
    obtain ⟨h1, h2, l, hl, hk⟩ := hpath files e
    exact ⟨by simp [discoverBatch, he, h1], by simp [discoverBatch, he, h2],
      ⟨l, by simp only [discoverBatch, he]; exact hl, hk⟩⟩
  | succ f ih =>
    intro files
    obtain ⟨e, he⟩ := hco files
    by_cases hlen : 2 ≤ files.length
    · have hl := ih (files.take (max 1 (files.length / 2)))
      have hr := ih (files.drop (max 1 (files.length / 2)))
      refine ⟨?_, ?_, ?_⟩
      · simp only [discoverBatch, he, if_pos hlen]
        rw [hl.1, hr.1]
        rfl
      · simp only [discoverBatch, he, if_pos hlen]
        rw [hl.2.1, hr.2.1]
        rfl
      · obtain ⟨l, hmem, hk⟩ := hl.2.2
        refine ⟨l, ?_, hk⟩
        simp only [discoverBatch, he, if_pos hlen]
        simp only [List.mem_cons, List.mem_append]
        exact Or.inr (Or.inl hmem)
    · obtain ⟨h1, h2, l, hlm, hk⟩ := hpath files e
      exact ⟨by simp [discoverBatch, he, if_neg hlen, h1],
        by simp [discoverBatch, he, if_neg hlen, h2],
        ⟨l, by simp only [discoverBatch, he, if_neg hlen]; exact hlm, hk⟩⟩

/-- Claim C2: entered at depth 0 (fuel 2), `discover_batch` makes at most 7
content calls and at most 4 path-only calls — the recursion tree has depth at
most 2 — and it always returns; when every content call and every path-only
call fails, the batch yields the empty metric list with the empty trace and a
`kind="Error"` log entry, so the pipeline can continue with the next batch. -/
theorem C2_discover_batch (co : List FileD → Except PyErr (List Json × DTrace))
    (po : List (List Char) → Except PyErr (List Json × DTrace)) (bno : Nat)
    (files : List FileD) :
    ((discoverBatch co po bno 2 files).contentCalls ≤ 7 ∧
     (discoverBatch co po bno 2 files).pathCalls ≤ 4) ∧
    ((∀ fs, ∃ e, co fs = .error e) → (∀ ps, ∃ e, po ps = .error e) →
      (discoverBatch co po bno 2 files).metrics = [] ∧
      (discoverBatch co po bno 2 files).trace = ⟨[], [], []⟩ ∧
      ∃ l ∈ (discoverBatch co po bno 2 files).logs, l.kind = ("Error".toList)) := by
  constructor
  · exact discoverBatch_calls co po bno 2 files
  · intro hco hpo
    exact discoverBatch_allfail co po bno hco hpo 2 files

/-- Witness for C2: both oracles failing on a concrete two-file batch. -/
theorem C2_discover_batch_witness :
    ((discoverBatch cOracleFail pOracleFail 1 2 cFiles).contentCalls ≤ 7 ∧
     (discoverBatch cOracleFail pOracleFail 1 2 cFiles).pathCalls ≤ 4) ∧
    ((discoverBatch cOracleFail pOracleFail 1 2 cFiles).metrics = [] ∧
     (discoverBatch cOracleFail pOracleFail 1 2 cFiles).trace = ⟨[], [], []⟩ ∧
     ∃ l ∈ (discoverBatch cOracleFail pOracleFail 1 2 cFiles).logs,
       l.kind = ("Error".toList)) :=
  ⟨(C2_discover_batch cOracleFail pOracleFail 1 cFiles).1,
   (C2_discover_batch cOracleFail pOracleFail 1 cFiles).2
     (fun _ => ⟨⟨("Exception".toList), ("boom".toList)⟩, rfl⟩)
     (fun _ => ⟨⟨("Exception".toList), ("bam".toList)⟩, rfl⟩)⟩

theorem clamp01_bounds (v : ℚ) : 0 ≤ clamp v 0 100 ∧ clamp v 0 100 ≤ 100 := by
  unfold clamp
  exact ⟨le_max_left 0 _, max_le (by norm_num) (min_le_left _ _)⟩

theorem round2_bounds (q : ℚ) (h0 : 0 ≤ q) (h1 : q ≤ 100) :
    0 ≤ round2 q ∧ round2 q ≤ 100 := by
  have hr0 : (0 : ℤ) ≤ round (q * 100) := by
    rw [round_eq]
    exact Int.le_floor.mpr (by push_cast; linarith)
  have hr1 : round (q * 100) ≤ 10000 := by
    rw [round_eq]
    have h2 : (q * 100 + 1 / 2 : ℚ) < ((10001 : ℤ) : ℚ) := by push_cast; linarith
    have h3 := Int.floor_lt.mpr h2
    omega
  constructor
  · unfold round2
    apply div_nonneg _ (by norm_num)
    exact_mod_cast hr0
  · unfold round2
    rw [div_le_iff₀ (by norm_num : (0 : ℚ) < 100)]
    have h4 : ((round (q * 100) : ℤ) : ℚ) ≤ ((10000 : ℤ) : ℚ) := by exact_mod_cast hr1
    push_cast at h4 ⊢
    linarith

theorem mkEntries_value_mem : ∀ (vs : List MockVal) (days : List Nat) (n : Nat) (e : MEntry),
    e ∈ mkEntries vs days n → e.value ∈ vs := by
  intro vs
  induction vs with
  | nil => intro days n e he; simp [mkEntries] at he
  | cons v vs ih =>
    intro days n e he
    cases days with
    | nil => simp [mkEntries] at he
    | cons d ds =>
      simp only [mkEntries, List.zipWith_cons_cons, List.mem_cons] at he
      rcases he with rfl | he
      · exact List.mem_cons_self _ _
      · exact List.mem_cons_of_mem _ (ih ds n e he)

theorem numValList_pct_mem (vals : List ℚ) (c : Nat) (v : MockVal)
    (hv : v ∈ numValList true vals c) :
    ∃ q, v = MockVal.num q ∧ 0 ≤ q ∧ q ≤ 100 := by
  unfold numValList at hv
  simp only [List.mem_map, List.mem_range] at hv
  obtain ⟨idx, _, rfl⟩ := hv
  refine ⟨round2 (clamp (vals.getD idx 0) 0 100), by simp, ?_, ?_⟩
  · exact (round2_bounds _ (clamp01_bounds _).1 (clamp01_bounds _).2).1
  · exact (round2_bounds _ (clamp01_bounds _).1 (clamp01_bounds _).2).2

/-- In the percentage case, every generated entry value is a number in
`[0, 100]` by the final clamp-then-round step. -/
theorem metricOut_pct (nowDay : Nat) (m : MetricIn) (r : Rng)
    (hdt : dtOf m = ("percentage".toList)) :
    ∀ e ∈ (metricOut nowDay m r).1.entries,
      ∃ q, e.value = MockVal.num q ∧ 0 ≤ q ∧ q ≤ 100 := by
  intro e he
  have hent : (metricOut nowDay m r).1.entries =
      mkEntries (numValList true
        (numericVals (infer_kind (nameOf m)) (("percentage".toList)) r).1
        ((List.range 30).reverse).length) ((List.range 30).reverse) nowDay := by
    simp only [metricOut, hdt]
    rw [if_neg (by decide), if_neg (by decide)]
    simp [beq_self_eq_true]
  rw [hent] at he
  exact numValList_pct_mem _ _ _ (mkEntries_value_mem _ _ _ _ he)

theorem mockLoop_getD (nowDay : Nat) : ∀ (ms : List MetricIn) (r : Rng) (i : Nat),
    i < ms.length →
    ∃ r2, (mockLoop nowDay ms r).getD i defMockOut =
      (metricOut nowDay (ms.getD i defMetricIn) r2).1 := by
  intro ms
  induction ms with
  | nil => intro r i hi; simp at hi
  | cons m rest ih =>
    intro r i hi
    cases i with
    | zero => exact ⟨r, rfl⟩
    | succ j =>
      have hj : j < rest.length := by simp [List.length_cons] at hi; omega
      exact ih ((metricOut nowDay m r).2) j hj

/-- Claim C10: every entry the mock-data fallback generates for a metric
whose `data_type` is `percentage` has a numeric value in `[0, 100]`. -/
theorem C10_percentage_bounds (nowDay : Nat) (ws : List Char) (ms : List MetricIn)
    (i : Nat) (hi : i < ms.length)
    (hdt : dtOf (ms.getD i defMetricIn) = ("percentage".toList)) :
    ∀ e ∈ ((fallback_mock_data nowDay ws ms).1.getD i defMockOut).entries,
      ∃ q, e.value = MockVal.num q ∧ 0 ≤ q ∧ q ≤ 100 := by
  intro e he
  obtain ⟨r2, hr⟩ := mockLoop_getD nowDay ms (seedOf ws ms.length) i hi
  rw [show (fallback_mock_data nowDay ws ms).1 =
    mockLoop nowDay ms (seedOf ws ms.length) from rfl, hr] at he
  exact metricOut_pct nowDay _ r2 hdt e he

/-- Witness for C10 at a concrete percentage metric: the first generated
entry carries a numeric value within the bounds. -/
theorem C10_percentage_bounds_witness :
    ∃ q, (((fallback_mock_data 100 ("ws".toList) [pctMetric]).1.getD 0 defMockOut).entries.get
        ⟨0, by decide⟩).value = MockVal.num q ∧ 0 ≤ q ∧ q ≤ 100 :=
  C10_percentage_bounds 100 ("ws".toList) [pctMetric] 0 (by decide) (by decide)
    _ (List.get_mem _ _ _)

theorem mkEntries_vals : ∀ (vs : List MockVal) (days : List Nat) (n1 n2 : Nat),
    (mkEntries vs days n1).map (fun e => e.value) =
      (mkEntries vs days n2).map (fun e => e.value) := by
  intro vs
  induction vs with
  | nil => intro days n1 n2; rfl
  | cons v vs ih =>
    intro days n1 n2
    cases days with
    | nil => rfl
    | cons d ds =>
      simp only [mkEntries, List.zipWith_cons_cons, List.map_cons]
      exact congrArg (List.cons v) (ih ds n1 n2)

/-- Everything except the timestamps — ids, names, values, and the RNG state
passed on — is independent of the wall-clock day. -/
theorem metricOut_shift (d1 d2 : Nat) (m : MetricIn) (r : Rng) :
    (metricOut d1 m r).1.metric_id = (metricOut d2 m r).1.metric_id ∧
    (metricOut d1 m r).1.metric_name = (metricOut d2 m r).1.metric_name ∧
    (metricOut d1 m r).1.entries.map (fun e => e.value) =
      (metricOut d2 m r).1.entries.map (fun e => e.value) ∧
    (metricOut d1 m r).2 = (metricOut d2 m r).2 := by
  refine ⟨rfl, rfl, ?_, rfl⟩
  exact mkEntries_vals _ _ d1 d2

theorem mockLoop_shift (d1 d2 : Nat) : ∀ (ms : List MetricIn) (r : Rng),
    (mockLoop d1 ms r).map valueView = (mockLoop d2 ms r).map valueView := by
  intro ms
  induction ms with
  | nil => intro r; rfl
  | cons m rest ih =>
    intro r
    have h := metricOut_shift d1 d2 m r
    simp only [mockLoop, List.map_cons]
    rw [h.2.2.2]
    congr 1
    · unfold valueView
      rw [h.1, h.2.1, h.2.2.1]
    · exact ih _

/-- Claim C9 (amended): every fallback synthesizer is deterministic given its
inputs, once the wall clock is acknowledged as an input of the mock-data one.
The heuristic metric fallback reads no clock and draws no randomness — its
embedding is a plain function of the project summary, the file paths and the
metric cap, so identical inputs give identical output, with the fallback trace
flag set and at most `max_metrics` metrics. The mock-data fallback seeds its
RNG only from the inputs, so its ids, names, entry values and trace are
identical across calls with identical inputs regardless of the clock; only its
entry timestamps follow the wall-clock date. -/
theorem C9_fallback_determinism :
    (∀ (ps : Option HSummary) (fps : List (List Char)) (mm : Nat),
      heuristic_metric_fallback ps fps mm = heuristic_metric_fallback ps fps mm ∧
      (heuristic_metric_fallback ps fps mm).2.fallback = true ∧
      (heuristic_metric_fallback ps fps mm).1.length ≤ mm) ∧
    (∀ (d1 d2 : Nat) (ws : List Char) (ms : List MetricIn),
      (fallback_mock_data d1 ws ms).1.map valueView =
        (fallback_mock_data d2 ws ms).1.map valueView ∧
      (fallback_mock_data d1 ws ms).2 = (fallback_mock_data d2 ws ms).2 ∧
      (fallback_mock_data d1 ws ms).2.fallback = true) := by
  constructor
  · intro ps fps mm
    exact ⟨rfl, rfl, List.length_take_le mm _⟩
  · intro d1 d2 ws ms
    exact ⟨mockLoop_shift d1 d2 ms (seedOf ws ms.length), rfl, rfl⟩

/-- Counterexample to C9 as stated: two calls with identical inputs (same
workspace name, same metric list, hence same seed material) made on different
wall-clock days produce different outputs, because the entry timestamps are
read from `datetime.now`. -/
theorem C9_counterexample :
    fallback_mock_data 100 ("ws".toList) [boolMetric] ≠
      fallback_mock_data 101 ("ws".toList) [boolMetric] := by
  intro h
  have h2 := congrArg
    (fun p => ((p.1.getD 0 defMockOut).entries.getD 0 ⟨MockVal.bool true, 0⟩).day) h
  exact absurd h2 (by decide)
